import Mathlib

/-!
Verification of the ffmpeg-server job execution pipeline.

This development shallowly embeds the core of the ffmpeg-server repository:
command parsing (`parseArgs` over a shell tokenizer), output-file extraction
(`parseOutputFiles`), URL extraction (`extractUrls`), path resolution
(`resolveOutputPaths` / `replaceOutputPaths` over models of the Node
`path.posix` functions), the subprocess lifecycle state machine of
`runFFmpeg` (timeout / close / spawn-error race), the upload loop
(`uploadToSupabase` and the batch upload phase), error classification
(`categorizeError`), the workspace lifecycle (`createRequestWorkspace` /
`cleanupRequestWorkspace`) and the request handler (`executeFfmpeg`).

Strings are manipulated through their underlying character lists so that
every definition is executable and every concrete instance can be settled
by `decide` or `rfl`.
-/

namespace FfmpegServer

/-! ### Character and string helpers

JavaScript string primitives used by the source are modelled over the
character list of a Lean `String`.
-/

/-- Whitespace as matched by the JavaScript regular expression class `\s`
(restricted to the ASCII whitespace characters that can appear here). -/
def wsChar (c : Char) : Bool :=
  c == ' ' || c == '\t' || c == '\n' || c == '\r' || c == '\x0b' || c == '\x0c'

/-- `trimChars l` removes leading and trailing whitespace characters,
modelling JavaScript `String.prototype.trim`. -/
def trimChars (l : List Char) : List Char :=
  ((l.dropWhile wsChar).reverse.dropWhile wsChar).reverse

/-- JavaScript `String.prototype.trim`. -/
def jsTrim (s : String) : String :=
  String.mk (trimChars s.data)

/-- Scanner for `strContains`: does `pat` occur as a contiguous run inside
the list? -/
def containsAux (pat : List Char) : List Char → Bool
  | [] => pat.isEmpty
  | c :: cs => pat.isPrefixOf (c :: cs) || containsAux pat cs

/-- JavaScript `String.prototype.includes`: `strContains hay sub = true` iff
`sub` occurs contiguously inside `hay`. -/
def strContains (hay sub : String) : Bool :=
  containsAux sub.data hay.data

/-- JavaScript `String.prototype.startsWith`. -/
def strStartsWith (s pre : String) : Bool :=
  pre.data.isPrefixOf s.data

/-- `containsAux` holds whenever the pattern is an infix. -/
theorem containsAux_of_infix (pat : List Char) :
    ∀ l : List Char, pat <:+: l → containsAux pat l = true := by
  intro l
  induction l with
  | nil =>
    intro h
    rcases h with ⟨s, t, hst⟩
    have h1 := List.append_eq_nil.mp hst
    have h2 := List.append_eq_nil.mp h1.1
    simp [containsAux, h2.2]
  | cons c cs ih =>
    intro h
    rcases List.infix_cons_iff.mp h with h | h
    · simp [containsAux, List.isPrefixOf_iff_prefix, h]
    · simp [containsAux, ih h]

/-- Conversely, `containsAux` implies an infix occurrence. -/
theorem infix_of_containsAux (pat : List Char) :
    ∀ l : List Char, containsAux pat l = true → pat <:+: l := by
  intro l
  induction l with
  | nil =>
    intro h
    simp only [containsAux, List.isEmpty_iff] at h
    simp [h]
  | cons c cs ih =>
    intro h
    simp only [containsAux, Bool.or_eq_true] at h
    rcases h with h | h
    · exact List.IsPrefix.isInfix (List.isPrefixOf_iff_prefix.mp h)
    · exact (ih h).trans (List.IsSuffix.isInfix (List.suffix_cons c cs))

/-- `strContains` holds for any string assembled around a part that
contains the pattern. -/
theorem strContains_of_parts (pre mid post sub : String)
    (h : strContains mid sub = true) :
    strContains (pre ++ mid ++ post) sub = true := by
  unfold strContains at h ⊢
  simp only [String.data_append]
  apply containsAux_of_infix
  exact (infix_of_containsAux _ _ h).trans (List.infix_append _ _ _)

/-! ### Decimal rendering of numbers

JavaScript template literals render numbers in decimal.  The rendering is
defined with explicit fuel so that it is structurally recursive and
evaluates by `decide`.
-/

/-- The decimal digit character for `d < 10`. -/
def digitChar (d : Nat) : Char :=
  if d = 0 then '0' else if d = 1 then '1' else if d = 2 then '2'
  else if d = 3 then '3' else if d = 4 then '4' else if d = 5 then '5'
  else if d = 6 then '6' else if d = 7 then '7' else if d = 8 then '8'
  else '9'

/-- Fuelled big-endian decimal digit list of a natural number. -/
def natDigitsF : Nat → Nat → List Char
  | 0, _ => []
  | _ + 1, 0 => []
  | fuel + 1, n => natDigitsF fuel (n / 10) ++ [digitChar (n % 10)]

/-- Big-endian decimal digit list of a natural number (empty for `0`). -/
def natDigits (n : Nat) : List Char := natDigitsF n n

/-- Decimal rendering of a natural number, as a JavaScript template
literal would produce. -/
def natRepr (n : Nat) : String :=
  if n = 0 then "0" else String.mk (natDigits n)

/-- The numeric value of a big-endian digit-character list, as JavaScript
`parseInt(_, 10)` computes it on an all-digit string. -/
def digitsVal (ds : List Char) : Nat :=
  ds.foldl (fun a c => a * 10 + (c.toNat - 48)) 0

theorem digitChar_isDigit (d : Nat) (h : d < 10) : (digitChar d).isDigit = true := by
  interval_cases d <;> decide

theorem digitChar_toNat (d : Nat) (h : d < 10) : (digitChar d).toNat = 48 + d := by
  interval_cases d <;> decide

theorem digitsVal_append_digit (l : List Char) (c : Char) :
    digitsVal (l ++ [c]) = digitsVal l * 10 + (c.toNat - 48) := by
  unfold digitsVal
  rw [List.foldl_append]
  rfl

theorem natDigitsF_val (fuel n : Nat) (h : n ≤ fuel) :
    digitsVal (natDigitsF fuel n) = n := by
  induction fuel generalizing n with
  | zero =>
    interval_cases n
    rfl
  | succ f ih =>
    cases n with
    | zero => rfl
    | succ m =>
      rw [show natDigitsF (f + 1) (m + 1)
            = natDigitsF f ((m + 1) / 10) ++ [digitChar ((m + 1) % 10)] from rfl]
      rw [digitsVal_append_digit, ih _ (by omega)]
      rw [digitChar_toNat _ (Nat.mod_lt _ (by omega))]
      omega

theorem digitsVal_natDigits (n : Nat) : digitsVal (natDigits n) = n :=
  natDigitsF_val n n (Nat.le_refl n)

theorem natDigitsF_all_digits (fuel n : Nat) :
    ∀ c ∈ natDigitsF fuel n, c.isDigit = true := by
  induction fuel generalizing n with
  | zero => intro c hc; simp [natDigitsF] at hc
  | succ f ih =>
    cases n with
    | zero => intro c hc; simp [natDigitsF] at hc
    | succ m =>
      intro c hc
      rw [show natDigitsF (f + 1) (m + 1)
            = natDigitsF f ((m + 1) / 10) ++ [digitChar ((m + 1) % 10)] from rfl] at hc
      rcases List.mem_append.mp hc with h | h
      · exact ih _ _ h
      · rcases List.mem_singleton.mp h with rfl
        exact digitChar_isDigit _ (Nat.mod_lt _ (by omega))

theorem natDigits_ne_nil (n : Nat) (h : n ≠ 0) : natDigits n ≠ [] := by
  cases n with
  | zero => exact absurd rfl h
  | succ m =>
    unfold natDigits
    rw [show natDigitsF (m + 1) (m + 1)
          = natDigitsF m ((m + 1) / 10) ++ [digitChar ((m + 1) % 10)] from rfl]
    simp

/-! ### Output-file extraction (`src/lib/ffmpeg-utils.ts`, `parseOutputFiles`) -/

/-- The table of flags that consume a following value, verbatim from
`parseOutputFiles`. -/
def flagsWithValues : List String :=
  ["-i", "-f", "-c", "-codec", "-vcodec", "-acodec",
   "-b:v", "-b:a", "-r", "-s", "-ar", "-ac",
   "-vf", "-af", "-t", "-ss", "-to",
   "-frames:v", "-frames:a", "-metadata",
   "-filter_complex", "-lavfi", "-map", "-map_metadata",
   "-disposition", "-stream_loop", "-itsoffset",
   "-crf", "-preset", "-profile", "-level", "-qscale",
   "-g", "-bf", "-maxrate", "-bufsize", "-pix_fmt"]

/-- `flagsWithValues.some(flag => arg === flag || arg.startsWith(flag + ":"))`. -/
def requiresValue (arg : String) : Bool :=
  flagsWithValues.any (fun flag => arg == flag || strStartsWith arg (flag ++ ":"))

/-- Loop state of `parseOutputFiles`: accumulated outputs, the skip-next
flag and the seen-an-input flag. -/
structure POFState where
  outputs : List String
  skipNext : Bool
  isAfterInput : Bool
deriving DecidableEq, Repr

/-- One iteration of the `parseOutputFiles` loop on argument `arg`.
Mirrors the source: an empty token is skipped (it is falsy in JavaScript)
before the skip-next check; `-i` marks an input and skips its value;
other flags consult the value table; bracketed stream labels, tokens
containing `://` and tokens containing `=` are never outputs; any other
token after an input is an output. -/
def parseOutputFilesStep (s : POFState) (arg : String) : POFState :=
  if arg == "" then s
  else if s.skipNext then { s with skipNext := false }
  else if arg == "-i" then { s with isAfterInput := true, skipNext := true }
  else if strStartsWith arg "-" then
    (if requiresValue arg then { s with skipNext := true } else s)
  else if strStartsWith arg "[" || strContains arg "://" || strContains arg "=" then s
  else if s.isAfterInput && !(strStartsWith arg "-") then
    { s with outputs := s.outputs ++ [arg] }
  else s

/-- `parseOutputFiles(args)`: extract the declared output files from an
argument vector. -/
def parseOutputFiles (args : List String) : List String :=
  (args.foldl parseOutputFilesStep ⟨[], false, false⟩).outputs

/-! ### URL extraction (`src/execute-llmpeg.ts` handler file, `extractUrls`)

The source matches the global regular expression `https?:\/\/[^\s]+` and
returns all matches in order.  The scan below is the standard
leftmost-match / continue-after-match semantics of a global regex,
implemented as a one-character-at-a-time state machine: outside a match,
a position starting with `http://` or `https://` followed by at least one
non-whitespace character begins a match; inside a match, characters are
consumed until whitespace.
-/

/-- Does a URL match begin at this position?  True when `http://` or
`https?://` is a prefix and a non-whitespace character follows the
scheme. -/
def urlStartsAt (l : List Char) : Bool :=
  ("https://".data.isPrefixOf l && !(wsChar ((l.drop 8).headD ' ')))
  || ("http://".data.isPrefixOf l && !(wsChar ((l.drop 7).headD ' ')))

/-- The scanning state machine for `extractUrls`: `acc = none` outside a
match, `acc = some run` inside a match with `run` the reversed characters
matched so far. -/
def urlScan : List Char → Option (List Char) → List String
  | [], none => []
  | [], some acc => [String.mk acc.reverse]
  | c :: cs, some acc =>
    if wsChar c then String.mk acc.reverse :: urlScan cs none
    else urlScan cs (some (c :: acc))
  | c :: cs, none =>
    if urlStartsAt (c :: cs) then urlScan cs (some [c])
    else urlScan cs none

/-- `extractUrls(argsString)`: all matches of `https?:\/\/[^\s]+`, in
order, duplicates included. -/
def extractUrls (s : String) : List String :=
  urlScan s.data none

/-! ### Node `path.posix` model

`resolveOutputPaths` calls `basename` and `join` from `node:path`.  The
two functions are modelled here over character lists: `posixBasename`
takes the last non-empty `/`-separated segment, and `posixJoin`
concatenates non-empty parts with `/` and normalizes the result
(resolving `.` and `..` segments) exactly as `path.posix.join` does.
-/

/-- Split a character list at every occurrence of `sep`. -/
def splitOnChar (sep : Char) : List Char → List (List Char)
  | [] => [[]]
  | c :: cs =>
    if c == sep then [] :: splitOnChar sep cs
    else (splitOnChar sep cs).modifyHead (c :: ·)

/-- Join segments with separator `sep`. -/
def joinWithChar (sep : Char) : List (List Char) → List Char
  | [] => []
  | [x] => x
  | x :: y :: rest => x ++ sep :: joinWithChar sep (y :: rest)

/-- Models Node `path.posix.basename(p)` (no suffix argument): the last
non-empty segment of the path, or the empty string when there is none. -/
def posixBasename (p : String) : String :=
  String.mk ((((splitOnChar '/' p.data).reverse).dropWhile List.isEmpty).headD [])

/-- Segment resolution of Node path normalization: `.` and empty segments
vanish; `..` pops a previous segment, is dropped at the root of an
absolute path, and is kept at the head of a relative path.  `acc` is the
reversed output stack. -/
def normSegs (absolute : Bool) (acc : List (List Char)) :
    List (List Char) → List (List Char)
  | [] => acc.reverse
  | s :: rest =>
    if s = [] || s = ['.'] then normSegs absolute acc rest
    else if s = ['.', '.'] then
      match acc with
      | [] => if absolute then normSegs absolute [] rest
              else normSegs absolute [['.', '.']] rest
      | t :: acc' =>
        if t = ['.', '.'] then normSegs absolute (s :: t :: acc') rest
        else normSegs absolute acc' rest
    else normSegs absolute (s :: acc) rest

/-- Models Node `path.posix.normalize` on a non-empty path. -/
def posixNormalize (p : List Char) : List Char :=
  if p = [] then ['.']
  else
    let absolute := p.headD ' ' == '/'
    let trailing := p.getLastD ' ' == '/'
    let core := joinWithChar '/' (normSegs absolute [] (splitOnChar '/' p))
    if core = [] then
      (if absolute then ['/'] else if trailing then ['.', '/'] else ['.'])
    else
      let withTrail := if trailing then core ++ ['/'] else core
      if absolute then '/' :: withTrail else withTrail

/-- Models Node `path.posix.join(a, b)`: drop empty parts, join with `/`,
normalize; the join of nothing is `"."`. -/
def posixJoin (a b : String) : String :=
  let parts := [a.data, b.data].filter (fun l => !l.isEmpty)
  if parts.isEmpty then "."
  else String.mk (posixNormalize (joinWithChar '/' parts))

/-! ### Output path resolution (`resolveOutputPaths`, `replaceOutputPaths`) -/

/-- `resolveOutputPaths(outputFiles, tempDir)`: an insertion-ordered map
from each declared output name to `join(tempDir, basename(name))`.
A name already present is not re-inserted (JavaScript `Map.set`
overwrites with an identical value and keeps the first insertion
position). -/
def resolveOutputPaths (outputFiles : List String) (tempDir : String) :
    List (String × String) :=
  outputFiles.foldl
    (fun m f =>
      if m.any (fun p => p.1 == f) then m
      else m ++ [(f, posixJoin tempDir (posixBasename f))])
    []

/-- Association-list lookup modelling JavaScript `Map.get`. -/
def mapGet (m : List (String × String)) (k : String) : Option String :=
  (m.find? (fun p => p.1 == k)).map (·.2)

/-- The per-argument substitution of `replaceOutputPaths`:
`pathMap.get(arg) || arg` (a falsy empty-string value falls back to the
argument). -/
def replaceArg (pathMap : List (String × String)) (arg : String) : String :=
  match mapGet pathMap arg with
  | some v => if v == "" then arg else v
  | none => arg

/-- `replaceOutputPaths(args, pathMap)`. -/
def replaceOutputPaths (args : List String) (pathMap : List (String × String)) :
    List String :=
  args.map (replaceArg pathMap)

/-! ### Error classification (`categorizeError`) -/

/-- The closed error taxonomy of the server (the `errorType` strings of
the HTTP responses). -/
inductive ErrType where
  | validation
  | timeout
  | spawn
  | execution
  | parse
  | storage
deriving DecidableEq, Repr

/-- A caught JavaScript value: either an `Error` with a message, or some
other thrown value (`err instanceof Error` fails). -/
inductive CaughtValue where
  | nonError
  | error (message : String)
deriving DecidableEq, Repr

/-- The record returned by `categorizeError`. -/
structure ErrorInfo where
  type : ErrType
  message : String
  statusCode : Nat
  exitCode : Option Int
deriving DecidableEq, Repr

/-- The pattern of the exit-code extraction regex `exited with code (\d+)`
without its capture group. -/
def exitCodePat : List Char :=
  ['e', 'x', 'i', 't', 'e', 'd', ' ', 'w', 'i', 't', 'h', ' ',
   'c', 'o', 'd', 'e', ' ']

/-- Leftmost match of `exited with code (\d+)`: scan for the literal
pattern followed by at least one decimal digit; the capture is the
maximal digit run, converted by `parseInt(_, 10)`. -/
def extractExitCodeAux : List Char → Option Int
  | [] => none
  | c :: cs =>
    if exitCodePat.isPrefixOf (c :: cs) then
      let ds := ((c :: cs).drop exitCodePat.length).takeWhile Char.isDigit
      if ds.isEmpty then extractExitCodeAux cs
      else some (digitsVal ds)
    else extractExitCodeAux cs

/-- `errorMessage.match(/exited with code (\d+)/)` followed by
`parseInt`. -/
def extractExitCode (msg : String) : Option Int :=
  extractExitCodeAux msg.data

/-- `categorizeError(err)` of `src/execute-ffmpeg.ts` (the storage-aware
version): substring dispatch on the error message, checked in source
order — storage keywords first, then timeout, spawn, parse, the
exit-code execution branch, and a default execution branch. -/
def categorizeError (err : CaughtValue) : ErrorInfo :=
  match err with
  | .nonError => ⟨.execution, "Unknown error occurred", 500, none⟩
  | .error m =>
    if strContains m "Supabase" || strContains m "upload"
        || strContains m "SUPABASE_BUCKET" || strContains m "exceeds maximum size" then
      ⟨.storage, m, 500, none⟩
    else if strContains m "timed out" then
      ⟨.timeout, m, 408, none⟩
    else if strContains m "Failed to spawn" then
      ⟨.spawn, m, 500, none⟩
    else if strContains m "Arguments are empty" || strContains m "Shell operators" then
      ⟨.parse, m, 400, none⟩
    else if strContains m "exited with code" then
      ⟨.execution, m, 400, extractExitCode m⟩
    else
      ⟨.execution, m, 500, none⟩

/-! ### The `runFFmpeg` subprocess promise (`ProcessRunner`)

The executor body of the promise in `runFFmpeg` is a small event-driven
state machine: `data` events append to the two capture buffers, the
timeout timer fires at most once while it is armed, `close` and `error`
clear the timer and settle the promise unless the timeout already fired.
A JavaScript promise settles at most once: later `resolve`/`reject`
calls are ignored, which `settle` models.
-/

/-- The settled state of the promise in `runFFmpeg`. -/
inductive Settled where
  | resolved (stdout stderr : String) (exitCode : Int)
  | rejected (message : String)
deriving DecidableEq, Repr

/-- The mutable state of the promise executor: the two capture buffers,
the single-assignment `isTimedOut` flag, whether the timeout timer is
still armed (`clearTimeout` disarms it), and the promise settlement. -/
structure RunState where
  stdoutBuf : String
  stderrBuf : String
  isTimedOut : Bool
  timerActive : Bool
  settled : Option Settled
deriving DecidableEq, Repr

/-- The state before any event: empty buffers, timer armed, unsettled. -/
def initRunState : RunState :=
  ⟨"", "", false, true, none⟩

/-- The events the executor can observe. -/
inductive ProcEvent where
  | stdoutData (chunk : String)
  | stderrData (chunk : String)
  | timeoutFires
  | close (code : Option Nat)
  | spawnError (message : String)

/-- Settling a promise: the first settlement wins, later ones are
ignored. -/
def settle (s : RunState) (o : Settled) : RunState :=
  if s.settled.isSome then s else { s with settled := some o }

/-- The timeout rejection message
`FFmpeg process timed out after ${timeoutMs / 1000} seconds`. -/
def timeoutMessage (timeoutMs : Nat) : String :=
  "FFmpeg process timed out after " ++ natRepr (timeoutMs / 1000) ++ " seconds"

/-- The exit code as rendered into the rejection message:
`code ?? -1` printed in decimal. -/
def exitCodeRepr (code : Option Nat) : String :=
  match code with
  | none => "-1"
  | some n => natRepr n

/-- `code ?? -1`: a `null` exit code is normalized to `-1`. -/
def normalizedExit (code : Option Nat) : Int :=
  match code with
  | none => -1
  | some n => n

/-- The rejection message of the nonzero-exit branch:
`FFmpeg process exited with code ${exitCode}\n${stderr}`. -/
def execMessage (code : Option Nat) (stderr : String) : String :=
  "FFmpeg process exited with code " ++ exitCodeRepr code ++ "\n" ++ stderr

/-- The spawn-error rejection message. -/
def spawnMessage (errMsg : String) : String :=
  "Failed to spawn FFmpeg process: " ++ errMsg

/-- One event of the `runFFmpeg` executor.  `timeoutFires` only happens
while the timer is armed; it sets `isTimedOut`, kills the process and
rejects.  `close` clears the timer, is ignored after a timeout, resolves
on exit code `0` and rejects otherwise.  `error` clears the timer and
rejects unless a timeout already fired. -/
def runStep (timeoutMs : Nat) (s : RunState) (e : ProcEvent) : RunState :=
  match e with
  | .stdoutData c => { s with stdoutBuf := s.stdoutBuf ++ c }
  | .stderrData c => { s with stderrBuf := s.stderrBuf ++ c }
  | .timeoutFires =>
    if s.timerActive then
      settle { s with isTimedOut := true, timerActive := false }
        (.rejected (timeoutMessage timeoutMs))
    else s
  | .close code =>
    if s.isTimedOut then { s with timerActive := false }
    else if normalizedExit code = 0 then
      settle { s with timerActive := false }
        (.resolved s.stdoutBuf s.stderrBuf (normalizedExit code))
    else
      settle { s with timerActive := false }
        (.rejected (execMessage code s.stderrBuf))
  | .spawnError msg =>
    if s.isTimedOut then { s with timerActive := false }
    else settle { s with timerActive := false } (.rejected (spawnMessage msg))

/-- The state after a sequence of events. -/
def runTrace (timeoutMs : Nat) (events : List ProcEvent) : RunState :=
  events.foldl (runStep timeoutMs) initRunState

/-! ### Upload pipeline (`uploadToSupabase` and the upload loop of `runFFmpeg`)

`uploadToSupabase` interacts with the environment (the
`SUPABASE_BUCKET` variable, the filesystem `stat` and `readFile`,
`Date.now`, the MIME table, the lazily created client and the storage
backend); these collaborators are passed in as a `StorageEnv` record.
`stat` and `readFile` are fallible: when the declared output was never
produced they reject with a platform message (such as
`ENOENT: no such file or directory, stat ...`), which the function
propagates unchanged — it does not wrap filesystem errors in its own
message. -/

/-- The environment `uploadToSupabase` interacts with. -/
structure StorageEnv where
  /-- `process.env.SUPABASE_BUCKET`, absent when unset. -/
  bucket : Option String
  /-- `stat(localPath)`: the file size, or the platform error message
  the promise rejects with (e.g. an ENOENT message for a missing
  file). -/
  statResult : String → Except String Nat
  /-- `readFile(localPath)`: success, or the platform error message. -/
  readResult : String → Except String Unit
  /-- `Date.now()` at upload time. -/
  now : Nat
  /-- Whether `getSupabaseClient()` succeeds; when `SUPABASE_URL` or
  `SUPABASE_SERVICE_ROLE_KEY` is unset it throws a fixed message. -/
  clientAvailable : Bool
  /-- The storage backend: an error message for a failing upload of the
  given storage path, `none` on success. -/
  uploadErr : String → Option String
  /-- `getPublicUrl(storagePath)`. -/
  publicUrl : String → String
  /-- `mime-types` `lookup(filename)`, `none` when unknown. -/
  mimeLookup : String → Option String

/-- `MAX_FILE_SIZE = 100 * 1024 * 1024`. -/
def maxFileSize : Nat := 100 * 1024 * 1024

/-- The record describing one published output file. -/
structure OutputFile where
  filename : String
  path : String
  url : String
  size : Nat
  contentType : String
deriving DecidableEq, Repr

/-- `uploadToSupabase(localPath, originalFilename)`: check the bucket
variable, `stat` the file (propagating a filesystem rejection), check
the size limit, `readFile` it (again propagating a rejection), build
the timestamped storage path, resolve the content type, obtain the
client and upload.  The bucket, size, client and upload failures throw
an `Error` with the message built by the source; the `stat`/`readFile`
failures propagate the platform message unchanged. -/
def uploadToSupabase (env : StorageEnv) (localPath originalFilename : String) :
    Except String OutputFile :=
  match env.bucket with
  | none => .error "SUPABASE_BUCKET environment variable is not set"
  | some _bucketName =>
    match env.statResult localPath with
    | .error e => .error e
    | .ok size =>
      if size > maxFileSize then
        .error ("File " ++ originalFilename ++ " exceeds maximum size of 100MB ("
          ++ natRepr size ++ " bytes)")
      else
        match env.readResult localPath with
        | .error e => .error e
        | .ok _ =>
          let storagePath := natRepr env.now ++ "-" ++ posixBasename originalFilename
          let contentType := (env.mimeLookup originalFilename).getD
            "application/octet-stream"
          if env.clientAvailable then
            match env.uploadErr storagePath with
            | some emsg =>
              .error ("Failed to upload " ++ originalFilename
                ++ " to Supabase Storage: " ++ emsg)
            | none =>
              .ok ⟨originalFilename, storagePath, env.publicUrl storagePath, size,
                contentType⟩
          else
            .error "Missing Supabase environment variables: SUPABASE_URL and SUPABASE_SERVICE_ROLE_KEY are required"

/-- The `for (const [originalPath, tempPath] of pathMap.entries())` loop
of `runFFmpeg`: upload each file in order, accumulate the results, and
on the first failure run `cleanupTempFiles` and rethrow.  The boolean
records whether the inner catch cleaned up. -/
def uploadLoop (env : StorageEnv) :
    List (String × String) → List OutputFile →
    Except String (List OutputFile) × Bool
  | [], acc => (.ok acc, false)
  | (originalPath, tempPath) :: rest, acc =>
    match uploadToSupabase env tempPath originalPath with
    | .ok f => uploadLoop env rest (acc ++ [f])
    | .error e => (.error e, true)

/-- The upload phase of `runFFmpeg` (lines 182–211): the loop above, the
`cleanupTempFiles` call after a successful batch, and the outer catch
that cleans up again before rethrowing.  The second component counts how
many times `cleanupTempFiles` ran. -/
def uploadPhase (env : StorageEnv) (pathMap : List (String × String)) :
    Except String (List OutputFile) × Nat :=
  match uploadLoop env pathMap [] with
  | (.ok outs, _) => (.ok outs, 1)
  | (.error e, _) => (.error e, 2)

/-! ### Command tokenization (`parseArgs`)

`parseArgs` delegates tokenization to the `shell-quote` library, whose
source is not part of this repository.

Modelled from the spec: the tokenizer applies POSIX-shell-like quoting
and escaping rules and distinguishes value tokens from shell control
operator tokens at the tokenizer level, so that operator-like characters
inside quoted tokens remain ordinary characters of a value token.
Unquoted operator character sequences (redirection, pipe, sequencing,
background, subshell) become operator entries; single quotes make every
character literal; double quotes allow backslash escapes; an unquoted
backslash escapes the next character.  Environment-variable expansion
and comment entries are not modelled (no claim depends on them).
-/

/-- One entry produced by the tokenizer: a value token, a shell control
operator, or a comment (an object without an `op` key, which the
`parseArgs` loop silently skips). -/
inductive ShellEntry where
  | str (s : String)
  | op (o : String)
  | comment (text : String)
deriving DecidableEq, Repr

/-- The quoting state of the tokenizer. -/
inductive TokMode where
  | normal
  | single
  | double
  | escaped
  | doubleEscaped
deriving DecidableEq, Repr

/-- Flush the current token, if any, onto the entry list. -/
def flushTok (cur : Option (List Char)) (entries : List ShellEntry) :
    List ShellEntry :=
  match cur with
  | none => entries
  | some t => entries ++ [.str (String.mk t)]

/-- The tokenizer state machine.  `cur = some t` holds the characters of
the token being built (a quoted empty token is `some []`).  Operator
sequences are recognized longest-first, by direct pattern match so that
the recursion stays structural. -/
def tokAux (entries : List ShellEntry) (cur : Option (List Char)) :
    TokMode → List Char → List ShellEntry
  | .normal, [] => flushTok cur entries
  | .single, [] => flushTok cur entries
  | .double, [] => flushTok cur entries
  | .escaped, [] => flushTok cur entries
  | .doubleEscaped, [] => flushTok cur entries
  | .single, c :: cs =>
    if c == '\'' then tokAux entries cur .normal cs
    else tokAux entries (some (cur.getD [] ++ [c])) .single cs
  | .double, c :: cs =>
    if c == '"' then tokAux entries cur .normal cs
    else if c == '\\' then tokAux entries cur .doubleEscaped cs
    else tokAux entries (some (cur.getD [] ++ [c])) .double cs
  | .escaped, c :: cs => tokAux entries (some (cur.getD [] ++ [c])) .normal cs
  | .doubleEscaped, c :: cs => tokAux entries (some (cur.getD [] ++ [c])) .double cs
  | .normal, '|' :: '|' :: cs => tokAux (flushTok cur entries ++ [.op "||"]) none .normal cs
  | .normal, '&' :: '&' :: cs => tokAux (flushTok cur entries ++ [.op "&&"]) none .normal cs
  | .normal, ';' :: ';' :: cs => tokAux (flushTok cur entries ++ [.op ";;"]) none .normal cs
  | .normal, '|' :: '&' :: cs => tokAux (flushTok cur entries ++ [.op "|&"]) none .normal cs
  | .normal, '<' :: '<' :: '<' :: cs => tokAux (flushTok cur entries ++ [.op "<<<"]) none .normal cs
  | .normal, '<' :: '(' :: cs => tokAux (flushTok cur entries ++ [.op "<("]) none .normal cs
  | .normal, '<' :: '&' :: cs => tokAux (flushTok cur entries ++ [.op "<&"]) none .normal cs
  | .normal, '>' :: '>' :: cs => tokAux (flushTok cur entries ++ [.op ">>"]) none .normal cs
  | .normal, '>' :: '&' :: cs => tokAux (flushTok cur entries ++ [.op ">&"]) none .normal cs
  | .normal, c :: cs =>
    if c == '|' || c == '&' || c == ';' || c == '(' || c == ')'
        || c == '<' || c == '>' then
      tokAux (flushTok cur entries ++ [.op (String.mk [c])]) none .normal cs
    else if wsChar c then tokAux (flushTok cur entries) none .normal cs
    else if c == '\'' then tokAux entries (some (cur.getD [])) .single cs
    else if c == '"' then tokAux entries (some (cur.getD [])) .double cs
    else if c == '\\' then tokAux entries (some (cur.getD [])) .escaped cs
    else tokAux entries (some (cur.getD [] ++ [c])) .normal cs

/-- The modelled `shell-quote` `parse`. -/
def shellParse (s : String) : List ShellEntry :=
  tokAux [] none .normal s.data

/-- The error message thrown when an operator entry is met. -/
def opErrorMessage (o : String) : String :=
  "Shell operators (" ++ o ++ ") are not allowed in FFmpeg arguments"

/-- The entry loop of `parseArgs`: collect string entries, silently skip
comment objects, and throw on the first operator entry, naming it. -/
def collectArgs : List ShellEntry → Except String (List String)
  | [] => .ok []
  | .str s :: rest =>
    match collectArgs rest with
    | .ok args => .ok (s :: args)
    | .error e => .error e
  | .op o :: _ => .error (opErrorMessage o)
  | .comment _ :: rest => collectArgs rest

/-- `parseArgs(argsString)`: trim, reject empty input, tokenize, reject
operator entries, reject an empty argument vector. -/
def parseArgs (argsString : String) : Except String (List String) :=
  let trimmed := jsTrim argsString
  if trimmed == "" then .error "Arguments are empty"
  else
    match collectArgs (shellParse trimmed) with
    | .error e => .error e
    | .ok args => if args.isEmpty then .error "Arguments are empty" else .ok args

/-- The part of `runFFmpeg` that runs before `spawn` (lines 103–127):
parse the arguments, extract the outputs, resolve them into the temp
directory and substitute them.  Returns the argument vector passed to
`spawn("ffmpeg", modifiedArgs)`, or `none` when `parseArgs` threw and no
subprocess is spawned.  The temp directory created by `createTempDir` is
a parameter. -/
def runFFmpegSpawnArgs (argsString tempDir : String) : Option (List String) :=
  match parseArgs argsString with
  | .error _ => none
  | .ok args =>
    let outputFiles := parseOutputFiles args
    let pathMap := resolveOutputPaths outputFiles tempDir
    some (replaceOutputPaths args pathMap)

/-! ### Request workspace (`src/lib/request-workspace.ts`)

The filesystem is modelled as the list of workspace root directories
that currently exist (keyed by request id).  `rm` may fail; the failure
is injected as a boolean. -/

/-- `createRequestWorkspace(requestId)`: the workspace root (with its
`inputs` and `outputs` subdirectories) now exists. -/
def createRequestWorkspace (fs : List String) (requestId : String) : List String :=
  requestId :: fs

/-- `cleanupRequestWorkspace(requestId)`: recursive forced removal inside
a try/catch.  Returns the filesystem afterwards and whether the function
threw (the catch swallows every removal failure, so this is always
`false`; on failure the directory remains). -/
def cleanupRequestWorkspace (fs : List String) (rmFails : Bool) (requestId : String) :
    List String × Bool :=
  match (if rmFails then Except.error "EACCES: permission denied"
         else Except.ok (fs.filter (fun w => w ≠ requestId)) : Except String (List String)) with
  | .ok fs' => (fs', false)
  | .error _ => (fs, false)

/-! ### The request handler (`executeFfmpeg` of the workspace-aware
handler file)

The handler validates the body, strips the `ffmpeg ` prefix, creates the
workspace, downloads the input URLs, queues `runFFmpeg`, sends the
response, and always cleans the workspace up in a `finally` block.  The
download and run stages interact with the network and the subprocess;
their outcomes are injected through a `HandlerOracle`. -/

/-- The success payload of `runFFmpeg` as the handler returns it. -/
structure RunSuccess where
  stdout : String
  stderr : String
  exitCode : Int
  outputs : List OutputFile
deriving DecidableEq, Repr

/-- Outcomes of the stages the handler awaits, plus the injected
behaviour of the cleanup `rm`. -/
structure HandlerOracle where
  /-- Outcome of `downloadInputs` (the message of the thrown error). -/
  downloadResult : Except String Unit
  /-- Outcome of the queued `runFFmpeg` call. -/
  runResult : Except String RunSuccess
  /-- Whether the `rm` of the cleanup fails. -/
  rmFails : Bool

/-- The response sent by the handler. -/
inductive HandlerResponse where
  /-- `res.json(result)` on success. -/
  | success (r : RunSuccess)
  /-- An error response with HTTP status, `errorType`, message, and the
  optional exit code. -/
  | failure (status : Nat) (errorType : ErrType) (message : String)
      (exitCode : Option Int)
deriving DecidableEq, Repr

/-- What the handler did: the response plus which stages were reached,
whether cleanup ran and threw, and the filesystem afterwards. -/
structure HandlerTrace where
  response : HandlerResponse
  workspaceCreated : Bool
  downloadsStarted : Bool
  reachedRun : Bool
  cleanupCalled : Bool
  cleanupThrew : Bool
  fsAfter : List String
deriving Repr

/-- The zod schema `executeFfmpegSchema`: `command` must be a string
(`none` models a missing or non-string field), non-empty, and its
trimmed form must start with `ffmpeg `. -/
def schemaOk (body : Option String) : Bool :=
  match body with
  | none => false
  | some c => c.length ≥ 1 && strStartsWith (jsTrim c) "ffmpeg "

/-- The error response produced from a caught error via
`categorizeError`. -/
def errorResponse (err : CaughtValue) : HandlerResponse :=
  let info := categorizeError err
  .failure info.statusCode info.type info.message info.exitCode

/-- The request handler.  On schema failure it responds with status 400
and `errorType: "validation"` before the workspace, downloads or the
run are touched.  Otherwise it runs the pipeline inside try/catch/finally
with the workspace cleanup in `finally`. -/
def executeFfmpeg (body : Option String) (requestId : String)
    (o : HandlerOracle) (fs : List String) : HandlerTrace :=
  if ¬ schemaOk body then
    { response := .failure 400 .validation "Validation failed" none
      workspaceCreated := false
      downloadsStarted := false
      reachedRun := false
      cleanupCalled := false
      cleanupThrew := false
      fsAfter := fs }
  else
    let c := (body.getD "")
    -- const args = command.trim().substring(7)
    let args := String.mk ((jsTrim c).data.drop 7)
    let fs1 := createRequestWorkspace fs requestId
    let inputUrls := extractUrls args
    let needDownload := !inputUrls.isEmpty
    let stageResult : Except String RunSuccess :=
      match (if needDownload then o.downloadResult else .ok ()) with
      | .error e => .error e
      | .ok _ => o.runResult
    let response : HandlerResponse :=
      match stageResult with
      | .ok r => .success r
      | .error e => errorResponse (.error e)
    let reachedRun := match (if needDownload then o.downloadResult else .ok ()) with
      | .ok _ => true
      | .error _ => false
    let (fs2, threw) := cleanupRequestWorkspace fs1 o.rmFails requestId
    { response := response
      workspaceCreated := true
      downloadsStarted := needDownload
      reachedRun := reachedRun
      cleanupCalled := true
      cleanupThrew := threw
      fsAfter := fs2 }

/-! ### Path well-formedness predicates (used to state the confinement
property of `resolveOutputPaths`) -/

/-- A regular path segment: non-empty, no separator, not `.` or `..`. -/
def goodSeg (s : List Char) : Prop :=
  s ≠ [] ∧ '/' ∉ s ∧ s ≠ ['.'] ∧ s ≠ ['.', '.']

/-- A clean absolute directory path: `/seg₁/…/segₙ` with `n ≥ 1` and every
segment regular (as produced by `createTempDir` / the workspace layout). -/
def cleanAbsDir (td : String) : Prop :=
  ∃ segs : List (List Char), segs ≠ [] ∧ (∀ s ∈ segs, goodSeg s) ∧
    td.data = '/' :: joinWithChar '/' segs

/-! # Theorems -/

/-! ### Generic helper lemmas -/

theorem isPrefixOf_append_self (l t : List Char) : l.isPrefixOf (l ++ t) = true := by
  rw [List.isPrefixOf_iff_prefix]
  exact List.prefix_append l t

theorem isPrefixOf_append_ext (p t x : List Char) (h : p.isPrefixOf t = true) :
    p.isPrefixOf (t ++ x) = true := by
  rw [List.isPrefixOf_iff_prefix] at h ⊢
  exact h.trans (t.prefix_append x)

theorem takeWhile_all_append (p : Char → Bool) (l : List Char) (c : Char) (t : List Char)
    (hl : ∀ x ∈ l, p x = true) (hc : p c = false) :
    (l ++ c :: t).takeWhile p = l := by
  induction l with
  | nil => simp [List.takeWhile, hc]
  | cons x xs ih =>
    simp only [List.cons_append, List.takeWhile]
    rw [hl x (List.mem_cons_self x xs)]
    simp [ih (fun y hy => hl y (List.mem_cons_of_mem x hy))]

theorem strContains_append_left (a b kw : String) (h : strContains a kw = true) :
    strContains (a ++ b) kw = true := by
  unfold strContains at h ⊢
  rw [String.data_append]
  exact containsAux_of_infix _ _
    ((infix_of_containsAux _ _ h).trans (List.IsPrefix.isInfix (a.data.prefix_append b.data)))

theorem strContains_append_right (a b kw : String) (h : strContains b kw = true) :
    strContains (a ++ b) kw = true := by
  unfold strContains at h ⊢
  rw [String.data_append]
  exact containsAux_of_infix _ _
    ((infix_of_containsAux _ _ h).trans (List.IsSuffix.isInfix (a.data.suffix_append b.data)))

/-! ### C1: the timeout wins the settlement race -/

/-- The executor invariant: while the timer is armed nothing has settled
and no timeout fired; once `isTimedOut` is set, the promise is settled
with the timeout rejection. -/
def timeoutInv (timeoutMs : Nat) (s : RunState) : Prop :=
  (s.timerActive = true → s.settled = none ∧ s.isTimedOut = false) ∧
  (s.isTimedOut = true → s.settled = some (.rejected (timeoutMessage timeoutMs)))

theorem settle_isTimedOut (s : RunState) (o : Settled) :
    (settle s o).isTimedOut = s.isTimedOut := by
  unfold settle; split <;> rfl

theorem settle_timerActive (s : RunState) (o : Settled) :
    (settle s o).timerActive = s.timerActive := by
  unfold settle; split <;> rfl

theorem settle_settled_of_none (s : RunState) (o : Settled)
    (h : s.settled = none) : (settle s o).settled = some o := by
  unfold settle
  rw [h]
  rfl

theorem settle_settled_of_some (s : RunState) (o : Settled) (x : Settled)
    (h : s.settled = some x) : (settle s o).settled = some x := by
  unfold settle
  rw [h]
  simp only [Option.isSome_some, if_true]
  exact h

theorem runStep_preserves_inv (timeoutMs : Nat) (s : RunState) (e : ProcEvent)
    (h : timeoutInv timeoutMs s) : timeoutInv timeoutMs (runStep timeoutMs s e) := by
  obtain ⟨h1, h2⟩ := h
  cases e with
  | stdoutData c => exact ⟨fun ht => h1 ht, fun ht => h2 ht⟩
  | stderrData c => exact ⟨fun ht => h1 ht, fun ht => h2 ht⟩
  | timeoutFires =>
    simp only [runStep]
    by_cases ht : s.timerActive = true
    · obtain ⟨hs, _⟩ := h1 ht
      rw [if_pos ht]
      refine ⟨fun hta => ?_, fun _ => settle_settled_of_none _ _ hs⟩
      rw [settle_timerActive] at hta
      simp at hta
    · rw [if_neg ht]
      exact ⟨h1, h2⟩
  | close code =>
    simp only [runStep]
    by_cases hto : s.isTimedOut = true
    · rw [if_pos hto]
      exact ⟨fun hta => by simp at hta, fun _ => h2 hto⟩
    · rw [if_neg hto]
      have hto' : s.isTimedOut = false := by
        simpa using hto
      split
      all_goals
        refine ⟨fun hta => ?_, fun hti => ?_⟩
      · rw [settle_timerActive] at hta; simp at hta
      · rw [settle_isTimedOut] at hti; simp [hto'] at hti
      · rw [settle_timerActive] at hta; simp at hta
      · rw [settle_isTimedOut] at hti; simp [hto'] at hti
  | spawnError msg =>
    simp only [runStep]
    by_cases hto : s.isTimedOut = true
    · rw [if_pos hto]
      exact ⟨fun hta => by simp at hta, fun _ => h2 hto⟩
    · rw [if_neg hto]
      have hto' : s.isTimedOut = false := by
        simpa using hto
      refine ⟨fun hta => ?_, fun hti => ?_⟩
      · rw [settle_timerActive] at hta; simp at hta
      · rw [settle_isTimedOut] at hti; simp [hto'] at hti

theorem foldl_preserves_inv (timeoutMs : Nat) (events : List ProcEvent)
    (s : RunState) (h : timeoutInv timeoutMs s) :
    timeoutInv timeoutMs (events.foldl (runStep timeoutMs) s) := by
  induction events generalizing s with
  | nil => exact h
  | cons e rest ih =>
    exact ih _ (runStep_preserves_inv timeoutMs s e h)

theorem runTrace_inv (timeoutMs : Nat) (events : List ProcEvent) :
    timeoutInv timeoutMs (runTrace timeoutMs events) :=
  foldl_preserves_inv timeoutMs events initRunState
    ⟨fun _ => ⟨rfl, rfl⟩, fun h => by simp [initRunState] at h⟩

theorem runStep_settled_frozen (timeoutMs : Nat) (s : RunState) (e : ProcEvent)
    (x : Settled) (h : s.settled = some x) :
    (runStep timeoutMs s e).settled = some x := by
  have hs : s.settled.isSome = true := by rw [h]; rfl
  cases e with
  | stdoutData c => exact h
  | stderrData c => exact h
  | timeoutFires =>
    simp only [runStep]
    by_cases ht : s.timerActive = true
    · simp only [ht, if_true, settle, hs, if_true]
      exact h
    · simp only [Bool.not_eq_true] at ht
      simp only [ht, Bool.false_eq_true, if_false]
      exact h
  | close code =>
    simp only [runStep]
    by_cases hto : s.isTimedOut = true
    · rw [if_pos hto]
      exact h
    · rw [if_neg hto]
      split
      · exact settle_settled_of_some _ _ _ h
      · exact settle_settled_of_some _ _ _ h
  | spawnError msg =>
    simp only [runStep]
    by_cases hto : s.isTimedOut = true
    · rw [if_pos hto]
      exact h
    · rw [if_neg hto]
      exact settle_settled_of_some _ _ _ h

theorem foldl_settled_frozen (timeoutMs : Nat) (more : List ProcEvent)
    (s : RunState) (x : Settled) (h : s.settled = some x) :
    (more.foldl (runStep timeoutMs) s).settled = some x := by
  induction more generalizing s with
  | nil => exact h
  | cons e rest ih =>
    exact ih _ (runStep_settled_frozen timeoutMs s e x h)

/-- C1: in `runFFmpeg`, once the timeout has fired (the `isTimedOut`
flag is set), the run is settled with the timeout rejection, and every
subsequent `close` or `error` signal from the subprocess is ignored: the
settlement stays the timeout rejection forever, so a job that reported a
timeout never also reports an execution error or a success result. -/
theorem claim_C1_timeout_wins (timeoutMs : Nat) (events : List ProcEvent)
    (h : (runTrace timeoutMs events).isTimedOut = true) :
    (runTrace timeoutMs events).settled
        = some (.rejected (timeoutMessage timeoutMs)) ∧
    ∀ more : List ProcEvent,
      (runTrace timeoutMs (events ++ more)).settled
        = some (.rejected (timeoutMessage timeoutMs)) := by
  have hset := (runTrace_inv timeoutMs events).2 h
  refine ⟨hset, fun more => ?_⟩
  unfold runTrace at hset ⊢
  rw [List.foldl_append]
  exact foldl_settled_frozen timeoutMs more _ _ hset

/-- Witness for C1: a concrete trace where the timeout fires and the
subprocess subsequently closes with exit code 0 and reports a spawn
error; the settlement is the timeout rejection throughout. -/
theorem claim_C1_timeout_wins_witness :
    (runTrace 300000 [.stderrData "partial", .timeoutFires]).settled
        = some (.rejected (timeoutMessage 300000)) ∧
    (runTrace 300000 ([.stderrData "partial", .timeoutFires]
        ++ [.close (some 0), .spawnError "oops"])).settled
        = some (.rejected (timeoutMessage 300000)) := by
  have h := claim_C1_timeout_wins 300000 [.stderrData "partial", .timeoutFires]
    (by decide)
  exact ⟨h.1, h.2 [.close (some 0), .spawnError "oops"]⟩

/-! ### C3: the cleanup guarantee -/

theorem cleanupRequestWorkspace_eq (fs : List String) (rmFails : Bool) (id : String) :
    cleanupRequestWorkspace fs rmFails id
      = (if rmFails then fs else fs.filter (fun w => w ≠ id), false) := by
  cases rmFails <;> rfl

/-- C3: `cleanupRequestWorkspace` never throws (every removal failure is
caught), the handler calls it on every exit path of the pipeline
(success or any injected stage failure), the workspace is erased when
the removal primitive succeeds, and a cleanup failure never changes the
job response. -/
theorem claim_C3_cleanup_guarantee :
    (∀ (fs : List String) (rmFails : Bool) (id : String),
        (cleanupRequestWorkspace fs rmFails id).2 = false) ∧
    (∀ (body : Option String) (requestId : String) (o : HandlerOracle)
        (fs : List String), schemaOk body = true →
      (executeFfmpeg body requestId o fs).cleanupCalled = true ∧
      (executeFfmpeg body requestId o fs).cleanupThrew = false ∧
      (o.rmFails = false → requestId ∉ (executeFfmpeg body requestId o fs).fsAfter) ∧
      (executeFfmpeg body requestId o fs).response
        = (executeFfmpeg body requestId { o with rmFails := !o.rmFails } fs).response) := by
  constructor
  · intro fs rmFails id
    rw [cleanupRequestWorkspace_eq]
  · intro body requestId o fs h
    refine ⟨?_, ?_, ?_, ?_⟩
    · simp [executeFfmpeg, h, cleanupRequestWorkspace_eq]
    · simp [executeFfmpeg, h, cleanupRequestWorkspace_eq]
    · intro hrm
      simp [executeFfmpeg, h, cleanupRequestWorkspace_eq, hrm, createRequestWorkspace,
        List.mem_filter]
    · simp [executeFfmpeg, h, cleanupRequestWorkspace_eq]

/-- Witness for C3 at a concrete request: the workspace of request `r1`
is gone after the handler returns, cleanup ran and did not throw. -/
theorem claim_C3_cleanup_guarantee_witness :
    (executeFfmpeg (some "ffmpeg -version") "r1"
        ⟨.ok (), .ok ⟨"", "", 0, []⟩, false⟩ ["w"]).cleanupCalled = true ∧
    (executeFfmpeg (some "ffmpeg -version") "r1"
        ⟨.ok (), .ok ⟨"", "", 0, []⟩, false⟩ ["w"]).cleanupThrew = false ∧
    "r1" ∉ (executeFfmpeg (some "ffmpeg -version") "r1"
        ⟨.ok (), .ok ⟨"", "", 0, []⟩, false⟩ ["w"]).fsAfter := by
  have t := claim_C3_cleanup_guarantee.2 (some "ffmpeg -version") "r1"
    ⟨.ok (), .ok ⟨"", "", 0, []⟩, false⟩ ["w"] (by decide)
  exact ⟨t.1, t.2.1, t.2.2.1 rfl⟩

/-! ### C5: validation happens before any effect -/

/-- C5: a request whose command text does not start (after trimming) with
`ffmpeg ` is rejected with a 400 `validation` response before a
workspace is created, any download starts or the run stage is reached;
the filesystem is untouched. -/
theorem claim_C5_validation_first (body : Option String) (requestId : String)
    (o : HandlerOracle) (fs : List String)
    (h : ∀ c, body = some c → strStartsWith (jsTrim c) "ffmpeg " = false) :
    (executeFfmpeg body requestId o fs).response
        = .failure 400 .validation "Validation failed" none ∧
    (executeFfmpeg body requestId o fs).workspaceCreated = false ∧
    (executeFfmpeg body requestId o fs).downloadsStarted = false ∧
    (executeFfmpeg body requestId o fs).reachedRun = false ∧
    (executeFfmpeg body requestId o fs).cleanupCalled = false ∧
    (executeFfmpeg body requestId o fs).fsAfter = fs := by
  have hs : schemaOk body = false := by
    cases body with
    | none => rfl
    | some c =>
      show (decide (c.length ≥ 1) && strStartsWith (jsTrim c) "ffmpeg ") = false
      rw [h c rfl]
      simp
  simp [executeFfmpeg, hs]

/-- Witness for C5: the command `ls -la` is rejected as validation with
no workspace and no downloads. -/
theorem claim_C5_validation_first_witness :
    (executeFfmpeg (some "ls -la") "r1" ⟨.ok (), .error "x", false⟩ []).response
        = .failure 400 .validation "Validation failed" none ∧
    (executeFfmpeg (some "ls -la") "r1" ⟨.ok (), .error "x", false⟩
        []).workspaceCreated = false := by
  have t := claim_C5_validation_first (some "ls -la") "r1" ⟨.ok (), .error "x", false⟩ []
    (fun c hc => by cases hc; decide)
  exact ⟨t.1, t.2.1⟩

/-! ### C7: output extraction examples and the no-`=` invariant -/

theorem parseOutputFilesStep_outputs (s : POFState) (a t : String)
    (ht : t ∈ (parseOutputFilesStep s a).outputs) :
    t ∈ s.outputs ∨ strContains t "=" = false := by
  unfold parseOutputFilesStep at ht
  split at ht
  · exact Or.inl ht
  · split at ht
    · exact Or.inl ht
    · split at ht
      · exact Or.inl ht
      · split at ht
        · split at ht
          · exact Or.inl ht
          · exact Or.inl ht
        · split at ht
          · exact Or.inl ht
          · next hnospecial =>
            split at ht
            · simp only at ht
              rcases List.mem_append.mp ht with hmem | hmem
              · exact Or.inl hmem
              · rcases List.mem_singleton.mp hmem with rfl
                simp only [Bool.or_eq_true, not_or, Bool.not_eq_true] at hnospecial
                exact Or.inr hnospecial.2
            · exact Or.inl ht

theorem parseOutputFiles_foldl_no_eq (args : List String) :
    ∀ (s : POFState) (t : String), t ∈ (args.foldl parseOutputFilesStep s).outputs →
      t ∈ s.outputs ∨ strContains t "=" = false := by
  induction args with
  | nil => exact fun s t ht => Or.inl ht
  | cons a rest ih =>
    intro s t ht
    rw [List.foldl_cons] at ht
    rcases ih (parseOutputFilesStep s a) t ht with h | h
    · exact parseOutputFilesStep_outputs s a t h
    · exact Or.inr h

/-- C7: `parseOutputFiles` returns exactly `["out.mp4"]` on
`-i in.mp4 -c:v libx264 out.mp4`, exactly `["x.mp4","y.mp4"]` on
`-i a.mp4 -i b.mp4 x.mp4 y.mp4`, and for every argument vector a token
containing `=` is never in the returned output list. -/
theorem claim_C7_output_extraction :
    parseOutputFiles ["-i", "in.mp4", "-c:v", "libx264", "out.mp4"] = ["out.mp4"] ∧
    parseOutputFiles ["-i", "a.mp4", "-i", "b.mp4", "x.mp4", "y.mp4"]
        = ["x.mp4", "y.mp4"] ∧
    ∀ (args : List String) (t : String), t ∈ parseOutputFiles args →
      strContains t "=" = false := by
  refine ⟨by decide, by decide, fun args t ht => ?_⟩
  rcases parseOutputFiles_foldl_no_eq args ⟨[], false, false⟩ t ht with h | h
  · simp at h
  · exact h

/-- Witness for C7: the token `scale=1280:720` is not among the outputs
of a filter-bearing vector, while `out.mp4` is and contains no `=`. -/
theorem claim_C7_output_extraction_witness :
    strContains "out.mp4" "=" = false ∧
    parseOutputFiles ["-i", "in.mp4", "-c:v", "libx264", "out.mp4"] = ["out.mp4"] :=
  ⟨claim_C7_output_extraction.2.2 ["-i", "in.mp4", "-c:v", "libx264", "out.mp4"]
      "out.mp4" (by decide),
   claim_C7_output_extraction.1⟩

/-! ### C9: HTTP status as a function of the error kind -/

theorem categorizeError_status_table (e : CaughtValue) :
    ((categorizeError e).type = .storage → (categorizeError e).statusCode = 500) ∧
    ((categorizeError e).type = .timeout → (categorizeError e).statusCode = 408) ∧
    ((categorizeError e).type = .spawn → (categorizeError e).statusCode = 500) ∧
    ((categorizeError e).type = .parse → (categorizeError e).statusCode = 400) ∧
    ((categorizeError e).type = .validation → False) := by
  cases e with
  | nonError => simp [categorizeError]
  | error m =>
    simp only [categorizeError]
    split_ifs <;> simp

/-- The counterexample for C9: two errors both classified `execution`
receive different status codes (500 for an unrecognized message, 400 for
an `exited with code` message), so the status is not a function of the
kind alone. -/
theorem claim_C9_counterexample :
    (categorizeError (.error "boom")).type
        = (categorizeError (.error "FFmpeg process exited with code 1\nboom")).type ∧
    (categorizeError (.error "boom")).statusCode
        ≠ (categorizeError (.error "FFmpeg process exited with code 1\nboom")).statusCode := by
  decide

/-- C9 (amended): the status code is a function of the classified kind
for every kind except `execution`: `storage` and `spawn` map to 500,
`timeout` to 408, `parse` to 400, and `validation` never comes out of
`categorizeError`; only `execution` maps to two codes (400 from the
`exited with code` branch, 500 from the default branch). -/
theorem claim_C9_status_by_kind :
    (∀ e : CaughtValue,
      ((categorizeError e).type = .storage → (categorizeError e).statusCode = 500) ∧
      ((categorizeError e).type = .timeout → (categorizeError e).statusCode = 408) ∧
      ((categorizeError e).type = .spawn → (categorizeError e).statusCode = 500) ∧
      ((categorizeError e).type = .parse → (categorizeError e).statusCode = 400) ∧
      ((categorizeError e).type = .validation → False)) ∧
    (∀ e₁ e₂ : CaughtValue,
      (categorizeError e₁).type = (categorizeError e₂).type →
      (categorizeError e₁).type ≠ .execution →
      (categorizeError e₁).statusCode = (categorizeError e₂).statusCode) := by
  refine ⟨categorizeError_status_table, fun e₁ e₂ hty hne => ?_⟩
  have t₁ := categorizeError_status_table e₁
  have t₂ := categorizeError_status_table e₂
  cases hv : (categorizeError e₁).type with
  | validation => exact absurd hv t₁.2.2.2.2
  | timeout => rw [t₁.2.1 hv, t₂.2.1 (hty ▸ hv)]
  | spawn => rw [t₁.2.2.1 hv, t₂.2.2.1 (hty ▸ hv)]
  | execution => exact absurd hv hne
  | parse => rw [t₁.2.2.2.1 hv, t₂.2.2.2.1 (hty ▸ hv)]
  | storage => rw [t₁.1 hv, t₂.1 (hty ▸ hv)]

/-- Witness for C9 (amended): two distinct `timeout`-classified errors
share the status code 408. -/
theorem claim_C9_status_by_kind_witness :
    (categorizeError (.error "a timed out b")).statusCode
      = (categorizeError
          (.error "FFmpeg process timed out after 300 seconds")).statusCode :=
  claim_C9_status_by_kind.2 (.error "a timed out b")
    (.error "FFmpeg process timed out after 300 seconds") (by decide) (by decide)

/-! ### C2: upload atomicity and failure classification -/

/-- Every error thrown by `uploadToSupabase` is either a propagated
`stat`/`readFile` rejection (the platform message unchanged), or one of
the messages the function itself constructs, and the latter are all
classified `storage` (status 500) by `categorizeError`: those messages
contain the keywords `SUPABASE_BUCKET`, `exceeds maximum size`,
`Supabase` and `upload`, which the storage branch checks first. -/
theorem uploadToSupabase_error_classify (env : StorageEnv)
    (localPath originalFilename msg : String)
    (h : uploadToSupabase env localPath originalFilename = .error msg) :
    env.statResult localPath = .error msg ∨
    env.readResult localPath = .error msg ∨
    ((categorizeError (.error msg)).type = .storage ∧
     (categorizeError (.error msg)).statusCode = 500) := by
  unfold uploadToSupabase at h
  cases hb : env.bucket with
  | none =>
    rw [hb] at h
    simp only [Except.error.injEq] at h
    subst h
    exact Or.inr (Or.inr ⟨by decide, by decide⟩)
  | some b =>
    rw [hb] at h
    simp only at h
    cases hs : env.statResult localPath with
    | error e =>
      rw [hs] at h
      simp only [Except.error.injEq] at h
      subst h
      exact Or.inl rfl
    | ok size =>
      rw [hs] at h
      simp only at h
      split at h
      · simp only [Except.error.injEq] at h
        subst h
        refine Or.inr (Or.inr ?_)
        have hstorage : (strContains ("File " ++ originalFilename
            ++ " exceeds maximum size of 100MB ("
            ++ natRepr size ++ " bytes)") "Supabase"
            || strContains ("File " ++ originalFilename
              ++ " exceeds maximum size of 100MB ("
              ++ natRepr size ++ " bytes)") "upload"
            || strContains ("File " ++ originalFilename
              ++ " exceeds maximum size of 100MB ("
              ++ natRepr size ++ " bytes)") "SUPABASE_BUCKET"
            || strContains ("File " ++ originalFilename
              ++ " exceeds maximum size of 100MB ("
              ++ natRepr size ++ " bytes)") "exceeds maximum size") = true := by
          have h4 : strContains ("File " ++ originalFilename
              ++ " exceeds maximum size of 100MB ("
              ++ natRepr size ++ " bytes)") "exceeds maximum size" = true := by
            apply strContains_append_left
            apply strContains_append_left
            apply strContains_append_right
            decide
          simp [h4]
        simp only [categorizeError]
        rw [if_pos hstorage]
        exact ⟨rfl, rfl⟩
      · cases hr : env.readResult localPath with
        | error e =>
          rw [hr] at h
          simp only [Except.error.injEq] at h
          subst h
          exact Or.inr (Or.inl rfl)
        | ok u =>
          rw [hr] at h
          simp only at h
          by_cases hc : env.clientAvailable = true
          · simp only [hc, if_true] at h
            cases hu : env.uploadErr
                (natRepr env.now ++ "-" ++ posixBasename originalFilename) with
            | some emsg =>
              rw [hu] at h
              simp only [Except.error.injEq] at h
              subst h
              refine Or.inr (Or.inr ?_)
              have hstorage : (strContains ("Failed to upload " ++ originalFilename
                  ++ " to Supabase Storage: " ++ emsg) "Supabase"
                  || strContains ("Failed to upload " ++ originalFilename
                    ++ " to Supabase Storage: " ++ emsg) "upload"
                  || strContains ("Failed to upload " ++ originalFilename
                    ++ " to Supabase Storage: " ++ emsg) "SUPABASE_BUCKET"
                  || strContains ("Failed to upload " ++ originalFilename
                    ++ " to Supabase Storage: " ++ emsg)
                    "exceeds maximum size") = true := by
                have h2 : strContains ("Failed to upload " ++ originalFilename
                    ++ " to Supabase Storage: " ++ emsg) "upload" = true := by
                  apply strContains_append_left
                  apply strContains_append_left
                  apply strContains_append_left
                  decide
                simp [h2]
              simp only [categorizeError]
              rw [if_pos hstorage]
              exact ⟨rfl, rfl⟩
            | none =>
              rw [hu] at h
              simp at h
          · have hc' : env.clientAvailable = false := by
              simpa using hc
            simp only [hc', Bool.false_eq_true, if_false,
              Except.error.injEq] at h
            subst h
            exact Or.inr (Or.inr ⟨by decide, by decide⟩)

theorem uploadLoop_error_member (env : StorageEnv) (entries : List (String × String)) :
    ∀ (acc : List OutputFile) (msg : String),
      (uploadLoop env entries acc).1 = .error msg →
      ∃ p ∈ entries, uploadToSupabase env p.2 p.1 = .error msg := by
  induction entries with
  | nil => intro acc msg h; cases h
  | cons e rest ih =>
    intro acc msg h
    obtain ⟨orig, tmp⟩ := e
    unfold uploadLoop at h
    split at h
    · rcases ih _ msg h with ⟨p, hp, he⟩
      exact ⟨p, List.mem_cons_of_mem _ hp, he⟩
    · next he =>
      cases h
      exact ⟨(orig, tmp), List.mem_cons_self _ _, he⟩

theorem uploadLoop_error_of_failing (env : StorageEnv)
    (entries : List (String × String)) :
    ∀ acc : List OutputFile,
      (∃ p ∈ entries, ∃ e, uploadToSupabase env p.2 p.1 = .error e) →
      ∃ msg, (uploadLoop env entries acc).1 = .error msg := by
  induction entries with
  | nil =>
    intro acc h
    rcases h with ⟨p, hp, _⟩
    cases hp
  | cons e rest ih =>
    intro acc h
    obtain ⟨orig, tmp⟩ := e
    unfold uploadLoop
    cases hu : uploadToSupabase env tmp orig with
    | ok f =>
      simp only [hu]
      apply ih
      rcases h with ⟨p, hp, em, hem⟩
      rcases List.mem_cons.mp hp with rfl | hp'
      · rw [hu] at hem; cases hem
      · exact ⟨p, hp', em, hem⟩
    | error em =>
      simp only [hu]
      exact ⟨em, rfl⟩

theorem uploadLoop_ok_length (env : StorageEnv) (entries : List (String × String)) :
    ∀ (acc : List OutputFile) (outs : List OutputFile),
      (uploadLoop env entries acc).1 = .ok outs →
      outs.length = acc.length + entries.length := by
  induction entries with
  | nil =>
    intro acc outs h
    cases h
    simp
  | cons e rest ih =>
    intro acc outs h
    obtain ⟨orig, tmp⟩ := e
    unfold uploadLoop at h
    split at h
    · have := ih _ outs h
      simp only [List.length_append, List.length_cons, List.length_nil] at this ⊢
      omega
    · cases h

/-- The counterexample for C2: when a declared output file was never
produced, `stat` rejects with a platform ENOENT message; the upload
phase fails with that message, and `categorizeError` classifies it as
`execution` with status 500 — NOT as `storage`, refuting the claim that
every failing upload is reported with error kind `storage`. -/
theorem claim_C2_counterexample :
    (uploadPhase
        ⟨some "bucket",
          fun _ => .error "ENOENT: no such file or directory, stat /tmp/t/out.mp4",
          fun _ => .ok (), 7, true, fun _ => none,
          fun p => "https://cdn/" ++ p, fun _ => none⟩
        [("out.mp4", "/tmp/t/out.mp4")]).1
      = .error "ENOENT: no such file or directory, stat /tmp/t/out.mp4" ∧
    (categorizeError
        (.error "ENOENT: no such file or directory, stat /tmp/t/out.mp4")).type
      = .execution ∧
    ¬ (categorizeError
        (.error "ENOENT: no such file or directory, stat /tmp/t/out.mp4")).type
      = .storage ∧
    (categorizeError
        (.error "ENOENT: no such file or directory, stat /tmp/t/out.mp4")).statusCode
      = 500 := by
  exact ⟨by rfl, by decide, by decide, by decide⟩

/-- C2 (amended): if uploading any output file of the batch fails, the
upload phase of `runFFmpeg` reports the whole job as one failure whose
message comes from the failing entry — a partial-success list is never
returned (a success carries one published artifact per map entry) — and
the temp-file cleanup runs before the error propagates (twice on the
failure path: the inner catch and the outer catch).  Every failure
message `uploadToSupabase` itself constructs (missing bucket variable,
the 100 MiB size check, missing client credentials, a backend upload
error) is classified `storage` with status 500; a `stat`/`readFile`
rejection propagates the platform message unchanged, which
`categorizeError` need not recognize as `storage` (ENOENT classifies
`execution`, per the counterexample). -/
theorem claim_C2_upload_atomicity (env : StorageEnv)
    (pathMap : List (String × String)) :
    (∀ msg, (uploadPhase env pathMap).1 = .error msg →
        (uploadPhase env pathMap).2 = 2 ∧
        ∃ p ∈ pathMap, uploadToSupabase env p.2 p.1 = .error msg) ∧
    (∀ localPath originalFilename msg,
        uploadToSupabase env localPath originalFilename = .error msg →
        env.statResult localPath = .error msg ∨
        env.readResult localPath = .error msg ∨
        ((categorizeError (.error msg)).type = .storage ∧
         (categorizeError (.error msg)).statusCode = 500)) ∧
    ((∃ p ∈ pathMap, ∃ e, uploadToSupabase env p.2 p.1 = .error e) →
        ∃ msg, (uploadPhase env pathMap).1 = .error msg) ∧
    (∀ outs, (uploadPhase env pathMap).1 = .ok outs →
        outs.length = pathMap.length ∧ (uploadPhase env pathMap).2 = 1) ∧
    (uploadPhase env pathMap).2 ≥ 1 := by
  refine ⟨?_, fun lp orig msg h =>
    uploadToSupabase_error_classify env lp orig msg h, ?_, ?_, ?_⟩
  · intro msg h
    unfold uploadPhase at h ⊢
    split at h
    · cases h
    · next heq =>
      cases h
      exact ⟨rfl, uploadLoop_error_member env pathMap [] msg (by rw [heq])⟩
  · intro h
    rcases uploadLoop_error_of_failing env pathMap [] h with ⟨msg, hmsg⟩
    unfold uploadPhase
    rcases hsplit : uploadLoop env pathMap [] with ⟨r, b⟩
    rw [hsplit] at hmsg
    simp only at hmsg
    subst hmsg
    exact ⟨msg, rfl⟩
  · intro outs h
    unfold uploadPhase at h ⊢
    split at h
    · next heq =>
      cases h
      have := uploadLoop_ok_length env pathMap [] outs (by rw [heq])
      simp only [List.length_nil, Nat.zero_add] at this
      exact ⟨this, rfl⟩
    · cases h
  · unfold uploadPhase
    split <;> omega

/-- Witness for C2 (amended): a two-file batch where the second upload
fails at the backend; the phase fails, and the backend failure message
is classified `storage`. -/
theorem claim_C2_upload_atomicity_witness :
    (∃ msg, (uploadPhase
        ⟨some "bucket", fun _ => .ok 10, fun _ => .ok (), 7, true,
          fun p => if p = "7-b.mp4" then some "network reset" else none,
          fun p => "https://cdn/" ++ p, fun _ => none⟩
        [("a.mp4", "/tmp/t/a.mp4"), ("b.mp4", "/tmp/t/b.mp4")]).1
          = .error msg) ∧
    (categorizeError
        (.error "Failed to upload b.mp4 to Supabase Storage: network reset")).type
      = .storage := by
  have t := claim_C2_upload_atomicity
    ⟨some "bucket", fun _ => .ok 10, fun _ => .ok (), 7, true,
      fun p => if p = "7-b.mp4" then some "network reset" else none,
      fun p => "https://cdn/" ++ p, fun _ => none⟩
    [("a.mp4", "/tmp/t/a.mp4"), ("b.mp4", "/tmp/t/b.mp4")]
  refine ⟨t.2.2.1 ⟨("b.mp4", "/tmp/t/b.mp4"), by decide,
    "Failed to upload b.mp4 to Supabase Storage: network reset", by rfl⟩, ?_⟩
  rcases t.2.1 "/tmp/t/b.mp4" "b.mp4"
      "Failed to upload b.mp4 to Supabase Storage: network reset" (by rfl)
      with hstat | hread | hcls
  · exact Except.noConfusion hstat
  · exact Except.noConfusion hread
  · exact hcls.1

/-! ### C4: shell operator tokens are rejected, never dropped -/

theorem collectArgs_error_of_op (entries : List ShellEntry)
    (h : ∃ o, ShellEntry.op o ∈ entries) :
    ∃ o, ShellEntry.op o ∈ entries ∧
      collectArgs entries = .error (opErrorMessage o) := by
  induction entries with
  | nil =>
    rcases h with ⟨o, ho⟩
    cases ho
  | cons e rest ih =>
    cases e with
    | str s =>
      have hrest : ∃ o, ShellEntry.op o ∈ rest := by
        rcases h with ⟨o, ho⟩
        rcases List.mem_cons.mp ho with he | hm
        · simp at he
        · exact ⟨o, hm⟩
      rcases ih hrest with ⟨o, ho, hc⟩
      refine ⟨o, List.mem_cons_of_mem _ ho, ?_⟩
      unfold collectArgs
      rw [hc]
    | op o => exact ⟨o, List.mem_cons_self _ _, rfl⟩
    | comment t =>
      have hrest : ∃ o, ShellEntry.op o ∈ rest := by
        rcases h with ⟨o, ho⟩
        rcases List.mem_cons.mp ho with he | hm
        · simp at he
        · exact ⟨o, hm⟩
      rcases ih hrest with ⟨o, ho, hc⟩
      exact ⟨o, List.mem_cons_of_mem _ ho, hc⟩

/-- C4: whenever the tokenizer produces a shell operator entry,
`parseArgs` fails with the parse error naming that operator (the
message contains the operator text), no argument vector is passed to
`spawn` (`runFFmpegSpawnArgs` is `none`), and — the tokenizer-level
distinction — an operator-like character inside a quoted token is
accepted as an ordinary value token. -/
theorem claim_C4_operator_rejection (argsString : String)
    (h : ∃ o, ShellEntry.op o ∈ shellParse (jsTrim argsString)) :
    (∃ o, ShellEntry.op o ∈ shellParse (jsTrim argsString) ∧
        parseArgs argsString = .error (opErrorMessage o) ∧
        strContains (opErrorMessage o) o = true) ∧
    (∀ tempDir, runFFmpegSpawnArgs argsString tempDir = none) ∧
    shellParse "-i \"file>name.mp4\" out.mp4"
        = [.str "-i", .str "file>name.mp4", .str "out.mp4"] ∧
    parseArgs "-i \"file>name.mp4\" out.mp4"
        = .ok ["-i", "file>name.mp4", "out.mp4"] := by
  have hne : (jsTrim argsString == "") = false := by
    rcases hb : (jsTrim argsString == "") with _ | _
    · rfl
    · exfalso
      have heq : jsTrim argsString = "" := by simpa using hb
      rcases h with ⟨o, ho⟩
      rw [heq] at ho
      simp [show shellParse "" = [] from rfl] at ho
  rcases collectArgs_error_of_op _ h with ⟨o, ho, hc⟩
  have hparse : parseArgs argsString = .error (opErrorMessage o) := by
    unfold parseArgs
    simp only [hne, Bool.false_eq_true, if_false]
    rw [hc]
  refine ⟨⟨o, ho, hparse, ?_⟩, fun tempDir => ?_, by decide, by rfl⟩
  · unfold opErrorMessage
    apply strContains_append_left
    apply strContains_append_right
    exact containsAux_of_infix _ _ (List.infix_refl _)
  · unfold runFFmpegSpawnArgs
    rw [hparse]

/-- Witness for C4: a bare redirection in the argument text is rejected
with the parse error naming `>`, and nothing reaches `spawn`. -/
theorem claim_C4_operator_rejection_witness :
    parseArgs "-i in.mp4 > hacked.txt" = .error (opErrorMessage ">") ∧
    runFFmpegSpawnArgs "-i in.mp4 > hacked.txt" "/tmp/t" = none := by
  have t := claim_C4_operator_rejection "-i in.mp4 > hacked.txt"
    ⟨">", by decide⟩
  exact ⟨by rfl, t.2.1 "/tmp/t"⟩

/-! ### C6: URL extraction is ordered but not de-duplicated -/

/-- The counterexample for C6: an arguments string in which the same
locator occurs twice yields two entries, not one — `extractUrls` does
NOT de-duplicate. -/
theorem claim_C6_counterexample :
    extractUrls "-i http://a.com/x.mp4 -t 5 http://a.com/x.mp4 out.mp4"
        = ["http://a.com/x.mp4", "http://a.com/x.mp4"] ∧
    (extractUrls "-i http://a.com/x.mp4 -t 5 http://a.com/x.mp4 out.mp4").count
        "http://a.com/x.mp4" = 2 ∧
    extractUrls "-i http://a.com/x.mp4 -t 5 http://a.com/x.mp4 out.mp4"
        ≠ (extractUrls "-i http://a.com/x.mp4 -t 5 http://a.com/x.mp4 out.mp4").dedup := by
  exact ⟨by decide, by decide, by decide⟩

theorem urlScan_inside_append (rest2 : List Char) (t : List Char)
    (ht : ∀ c ∈ t, wsChar c = false) :
    ∀ a : List Char, urlScan (t ++ ' ' :: rest2) (some a)
      = String.mk (a.reverse ++ t) :: urlScan rest2 none := by
  induction t with
  | nil =>
    intro a
    simp [urlScan, wsChar]
  | cons c t' ih =>
    intro a
    have hc : wsChar c = false := ht c (List.mem_cons_self _ _)
    simp only [List.cons_append, urlScan, hc, Bool.false_eq_true, if_false,
      List.append_eq]
    rw [ih (fun x hx => ht x (List.mem_cons_of_mem _ hx)) (c :: a)]
    simp

theorem urlScan_inside_end (t : List Char) (ht : ∀ c ∈ t, wsChar c = false) :
    ∀ a : List Char, urlScan t (some a) = [String.mk (a.reverse ++ t)] := by
  induction t with
  | nil => intro a; simp [urlScan]
  | cons c t' ih =>
    intro a
    have hc : wsChar c = false := ht c (List.mem_cons_self _ _)
    simp only [urlScan, hc, Bool.false_eq_true, if_false]
    rw [ih (fun x hx => ht x (List.mem_cons_of_mem _ hx)) (c :: a)]
    simp

theorem urlStartsAt_append (t x : List Char) (h : urlStartsAt t = true) :
    urlStartsAt (t ++ x) = true := by
  unfold urlStartsAt at h ⊢
  simp only [Bool.or_eq_true, Bool.and_eq_true] at h ⊢
  rcases h with ⟨hpre, hhd⟩ | ⟨hpre, hhd⟩
  · left
    have hdrop : t.drop 8 ≠ [] := by
      intro hd
      rw [hd] at hhd
      simp [wsChar] at hhd
    obtain ⟨d, ds, hds⟩ := List.exists_cons_of_ne_nil hdrop
    have h8 : 8 ≤ t.length := by
      by_contra hlt
      push_neg at hlt
      rw [List.drop_eq_nil_of_le (Nat.le_of_lt hlt)] at hds
      cases hds
    refine ⟨isPrefixOf_append_ext _ _ _ hpre, ?_⟩
    rw [List.drop_append_of_le_length h8]
    rw [hds] at hhd ⊢
    simpa using hhd
  · right
    have hdrop : t.drop 7 ≠ [] := by
      intro hd
      rw [hd] at hhd
      simp [wsChar] at hhd
    obtain ⟨d, ds, hds⟩ := List.exists_cons_of_ne_nil hdrop
    have h7 : 7 ≤ t.length := by
      by_contra hlt
      push_neg at hlt
      rw [List.drop_eq_nil_of_le (Nat.le_of_lt hlt)] at hds
      cases hds
    refine ⟨isPrefixOf_append_ext _ _ _ hpre, ?_⟩
    rw [List.drop_append_of_le_length h7]
    rw [hds] at hhd ⊢
    simpa using hhd

theorem urlScan_tokens (us : List (List Char))
    (h : ∀ t ∈ us, urlStartsAt t = true ∧ ∀ c ∈ t, wsChar c = false) :
    urlScan (joinWithChar ' ' us) none = us.map (fun t => String.mk t) := by
  induction us with
  | nil => rfl
  | cons t us' ih =>
    obtain ⟨hstart, hnws⟩ := h t (List.mem_cons_self _ _)
    obtain ⟨c, t', rfl⟩ : ∃ c t', t = c :: t' := by
      cases t with
      | nil =>
        exfalso
        rw [show urlStartsAt [] = false from rfl] at hstart
        cases hstart
      | cons c t' => exact ⟨c, t', rfl⟩
    have hnws' : ∀ x ∈ t', wsChar x = false :=
      fun x hx => hnws x (List.mem_cons_of_mem _ hx)
    cases us' with
    | nil =>
      show urlScan (c :: t') none = [String.mk (c :: t')]
      rw [show urlScan (c :: t') none
            = if urlStartsAt (c :: t') then urlScan t' (some [c])
              else urlScan t' none from rfl]
      rw [if_pos hstart]
      rw [urlScan_inside_end t' hnws' [c]]
      rfl
    | cons u r =>
      show urlScan ((c :: t') ++ ' ' :: joinWithChar ' ' (u :: r)) none = _
      simp only [List.cons_append]
      rw [show urlScan (c :: (t' ++ ' ' :: joinWithChar ' ' (u :: r))) none
            = if urlStartsAt (c :: (t' ++ ' ' :: joinWithChar ' ' (u :: r)))
              then urlScan (t' ++ ' ' :: joinWithChar ' ' (u :: r)) (some [c])
              else urlScan (t' ++ ' ' :: joinWithChar ' ' (u :: r)) none from rfl]
      have hstart' : urlStartsAt (c :: (t' ++ ' ' :: joinWithChar ' ' (u :: r))) = true := by
        have := urlStartsAt_append (c :: t') (' ' :: joinWithChar ' ' (u :: r)) hstart
        simpa using this
      rw [if_pos hstart']
      rw [urlScan_inside_append _ t' hnws' [c]]
      rw [ih (fun x hx => h x (List.mem_cons_of_mem _ hx))]
      rfl

/-- C6 (amended): `extractUrls` returns the ordered list of
`http://`/`https://` matches with one entry per occurrence — it is not
de-duplicated.  For any space-separated sequence of URL tokens the
result is exactly that sequence (duplicates preserved, order
preserved), and on a mixed argument string the locators appear in
order. -/
theorem claim_C6_ordered_not_dedup (us : List (List Char))
    (h : ∀ t ∈ us, urlStartsAt t = true ∧ ∀ c ∈ t, wsChar c = false) :
    extractUrls (String.mk (joinWithChar ' ' us))
        = us.map (fun t => String.mk t) ∧
    extractUrls "-i http://a.com/in.mp4 -vf scale=1280:720 https://b.org/x.mov out.mp4"
        = ["http://a.com/in.mp4", "https://b.org/x.mov"] :=
  ⟨urlScan_tokens us h, by decide⟩

/-- Witness for C6 (amended): two occurrences of the same locator give
two entries in order. -/
theorem claim_C6_ordered_not_dedup_witness :
    extractUrls (String.mk (joinWithChar ' '
        ["http://host/v.mp4".data, "http://host/v.mp4".data]))
      = ["http://host/v.mp4", "http://host/v.mp4"] := by
  have t := claim_C6_ordered_not_dedup
    ["http://host/v.mp4".data, "http://host/v.mp4".data] (by decide)
  exact t.1.trans (by decide)

/-! ### C8: exit-code classification on normal termination -/

theorem scan_skip (c : Char) (cs : List Char)
    (h : exitCodePat.isPrefixOf (c :: cs) = false) :
    extractExitCodeAux (c :: cs) = extractExitCodeAux cs := by
  simp [extractExitCodeAux, h]

theorem scan_match (tail : List Char) :
    extractExitCodeAux (exitCodePat ++ tail)
      = (if (tail.takeWhile Char.isDigit).isEmpty
          then extractExitCodeAux (exitCodePat.tail ++ tail)
          else some (digitsVal (tail.takeWhile Char.isDigit))) := by
  have hpre : exitCodePat.isPrefixOf ('e' :: ("xited with code ".data ++ tail)) = true := by
    show exitCodePat.isPrefixOf (exitCodePat ++ tail) = true
    exact isPrefixOf_append_self _ _
  have hdrop : ('e' :: ("xited with code ".data ++ tail)).drop exitCodePat.length = tail := by
    show (exitCodePat ++ tail).drop exitCodePat.length = tail
    exact List.drop_left _ _
  show extractExitCodeAux ('e' :: ("xited with code ".data ++ tail)) = _
  rw [extractExitCodeAux]
  simp only [hpre, if_true, hdrop]
  rfl

theorem extract_pos (n : Nat) (hn : n ≠ 0) (rest : List Char) :
    extractExitCodeAux ("FFmpeg process exited with code ".data
      ++ (natDigits n ++ '\n' :: rest)) = some (n : Int) := by
  have hdata : "FFmpeg process exited with code ".data
      = ['F','F','m','p','e','g',' ','p','r','o','c','e','s','s',' '] ++ exitCodePat := rfl
  rw [hdata]
  simp only [List.cons_append, List.nil_append, List.append_assoc]
  rw [scan_skip _ _ (by simp [exitCodePat, List.isPrefixOf])]
  rw [scan_skip _ _ (by simp [exitCodePat, List.isPrefixOf])]
  rw [scan_skip _ _ (by simp [exitCodePat, List.isPrefixOf])]
  rw [scan_skip _ _ (by simp [exitCodePat, List.isPrefixOf])]
  rw [scan_skip _ _ (by simp [exitCodePat, List.isPrefixOf])]
  rw [scan_skip _ _ (by simp [exitCodePat, List.isPrefixOf])]
  rw [scan_skip _ _ (by simp [exitCodePat, List.isPrefixOf])]
  rw [scan_skip _ _ (by simp [exitCodePat, List.isPrefixOf])]
  rw [scan_skip _ _ (by simp [exitCodePat, List.isPrefixOf])]
  rw [scan_skip _ _ (by simp [exitCodePat, List.isPrefixOf])]
  rw [scan_skip _ _ (by simp [exitCodePat, List.isPrefixOf])]
  rw [scan_skip _ _ (by simp [exitCodePat, List.isPrefixOf])]
  rw [scan_skip _ _ (by simp [exitCodePat, List.isPrefixOf])]
  rw [scan_skip _ _ (by simp [exitCodePat, List.isPrefixOf])]
  rw [scan_skip _ _ (by simp [exitCodePat, List.isPrefixOf])]
  rw [scan_match]
  rw [takeWhile_all_append Char.isDigit (natDigits n) '\n' rest
    (natDigitsF_all_digits n n) (by decide)]
  have hne : (natDigits n).isEmpty = false := by
    cases h : natDigits n with
    | nil => exact absurd h (natDigits_ne_nil n hn)
    | cons a l => rfl
  simp [hne, digitsVal_natDigits]

theorem extract_neg (rest : List Char)
    (h : extractExitCodeAux rest = none) :
    extractExitCodeAux ("FFmpeg process exited with code ".data
      ++ '-' :: '1' :: '\n' :: rest) = none := by
  have hdata : "FFmpeg process exited with code ".data
      = ['F','F','m','p','e','g',' ','p','r','o','c','e','s','s',' '] ++ exitCodePat := rfl
  rw [hdata]
  simp only [List.cons_append, List.nil_append, List.append_assoc]
  rw [scan_skip _ _ (by simp [exitCodePat, List.isPrefixOf])]
  rw [scan_skip _ _ (by simp [exitCodePat, List.isPrefixOf])]
  rw [scan_skip _ _ (by simp [exitCodePat, List.isPrefixOf])]
  rw [scan_skip _ _ (by simp [exitCodePat, List.isPrefixOf])]
  rw [scan_skip _ _ (by simp [exitCodePat, List.isPrefixOf])]
  rw [scan_skip _ _ (by simp [exitCodePat, List.isPrefixOf])]
  rw [scan_skip _ _ (by simp [exitCodePat, List.isPrefixOf])]
  rw [scan_skip _ _ (by simp [exitCodePat, List.isPrefixOf])]
  rw [scan_skip _ _ (by simp [exitCodePat, List.isPrefixOf])]
  rw [scan_skip _ _ (by simp [exitCodePat, List.isPrefixOf])]
  rw [scan_skip _ _ (by simp [exitCodePat, List.isPrefixOf])]
  rw [scan_skip _ _ (by simp [exitCodePat, List.isPrefixOf])]
  rw [scan_skip _ _ (by simp [exitCodePat, List.isPrefixOf])]
  rw [scan_skip _ _ (by simp [exitCodePat, List.isPrefixOf])]
  rw [scan_skip _ _ (by simp [exitCodePat, List.isPrefixOf])]
  rw [scan_match]
  rw [show (('-' :: '1' :: '\n' :: rest).takeWhile Char.isDigit) = [] from rfl]
  simp only [List.isEmpty_nil, if_true]
  simp only [exitCodePat, List.tail_cons, List.cons_append, List.nil_append]
  rw [scan_skip _ _ (by simp [exitCodePat, List.isPrefixOf])]
  rw [scan_skip _ _ (by simp [exitCodePat, List.isPrefixOf])]
  rw [scan_skip _ _ (by simp [exitCodePat, List.isPrefixOf])]
  rw [scan_skip _ _ (by simp [exitCodePat, List.isPrefixOf])]
  rw [scan_skip _ _ (by simp [exitCodePat, List.isPrefixOf])]
  rw [scan_skip _ _ (by simp [exitCodePat, List.isPrefixOf])]
  rw [scan_skip _ _ (by simp [exitCodePat, List.isPrefixOf])]
  rw [scan_skip _ _ (by simp [exitCodePat, List.isPrefixOf])]
  rw [scan_skip _ _ (by simp [exitCodePat, List.isPrefixOf])]
  rw [scan_skip _ _ (by simp [exitCodePat, List.isPrefixOf])]
  rw [scan_skip _ _ (by simp [exitCodePat, List.isPrefixOf])]
  rw [scan_skip _ _ (by simp [exitCodePat, List.isPrefixOf])]
  rw [scan_skip _ _ (by simp [exitCodePat, List.isPrefixOf])]
  rw [scan_skip _ _ (by simp [exitCodePat, List.isPrefixOf])]
  rw [scan_skip _ _ (by simp [exitCodePat, List.isPrefixOf])]
  rw [scan_skip _ _ (by simp [exitCodePat, List.isPrefixOf])]
  rw [scan_skip _ _ (by simp [exitCodePat, List.isPrefixOf])]
  rw [scan_skip _ _ (by simp [exitCodePat, List.isPrefixOf])]
  rw [scan_skip _ _ (by simp [exitCodePat, List.isPrefixOf])]
  exact h

theorem execMessage_data_pos (n : Nat) (hn : n ≠ 0) (st : String) :
    (execMessage (some n) st).data
      = "FFmpeg process exited with code ".data ++ (natDigits n ++ '\n' :: st.data) := by
  simp only [execMessage, exitCodeRepr, natRepr]
  rw [if_neg hn]
  simp [String.data_append, List.append_assoc]

theorem execMessage_data_neg (st : String) :
    (execMessage none st).data
      = "FFmpeg process exited with code ".data ++ '-' :: '1' :: '\n' :: st.data := by
  simp only [execMessage, exitCodeRepr]
  simp [String.data_append, List.append_assoc]

theorem extractExitCode_execMessage_pos (n : Nat) (hn : n ≠ 0) (st : String) :
    extractExitCode (execMessage (some n) st) = some (n : Int) := by
  unfold extractExitCode
  rw [execMessage_data_pos n hn st]
  exact extract_pos n hn st.data

theorem extractExitCode_execMessage_neg (st : String)
    (h : extractExitCodeAux st.data = none) :
    extractExitCode (execMessage none st) = none := by
  unfold extractExitCode
  rw [execMessage_data_neg st]
  exact extract_neg st.data h

theorem execMessage_contains_exit (code : Option Nat) (st : String) :
    strContains (execMessage code st) "exited with code" = true := by
  unfold execMessage
  apply strContains_append_left
  apply strContains_append_left
  apply strContains_append_left
  decide

theorem categorizeError_exec (m : String)
    (h1 : strContains m "Supabase" = false) (h2 : strContains m "upload" = false)
    (h3 : strContains m "SUPABASE_BUCKET" = false)
    (h4 : strContains m "exceeds maximum size" = false)
    (h5 : strContains m "timed out" = false)
    (h6 : strContains m "Failed to spawn" = false)
    (h7 : strContains m "Arguments are empty" = false)
    (h8 : strContains m "Shell operators" = false)
    (h9 : strContains m "exited with code" = true) :
    categorizeError (.error m) = ⟨.execution, m, 400, extractExitCode m⟩ := by
  simp only [categorizeError, h1, h2, h3, h4, h5, h6, h7, h8, h9]
  simp

/-- The counterexample for C8: when the subprocess closes with a `null`
exit code, the rejection message records the normalized code `-1` and
`categorizeError` classifies it as `execution`, but the classified
`exitCode` field is absent (`none`) — it does not equal the normalized
exit code `-1`, because the digit-only pattern `(\d+)` cannot match
`-1`. -/
theorem claim_C8_counterexample :
    (runTrace 300000 [.stderrData "frame corrupt", .close none]).settled
        = some (.rejected (execMessage none "frame corrupt")) ∧
    (categorizeError (.error (execMessage none "frame corrupt"))).type
        = .execution ∧
    normalizedExit none = -1 ∧
    (categorizeError (.error (execMessage none "frame corrupt"))).exitCode = none ∧
    ¬ (categorizeError (.error (execMessage none "frame corrupt"))).exitCode
        = some (normalizedExit none) := by
  exact ⟨by decide, by decide, rfl, by decide, by decide⟩

/-- C8 (amended): on normal termination in `runFFmpeg`, exit code 0
resolves the run successfully; any other exit code (a `null` code
normalized to `-1`) rejects with a message carrying the captured stderr
and the normalized code, and — provided the message contains none of the
keywords of the earlier classification branches — `categorizeError`
classifies it as `execution` with status 400, whose `exitCode` field
equals the exit code when the process exited with a number, and is
absent when the exit code was `null` (the digit-only extraction cannot
parse `-1`). -/
theorem claim_C8_exit_code_classification (code : Option Nat) (s : RunState)
    (hto : s.isTimedOut = false) (hset : s.settled = none)
    (h1 : strContains (execMessage code s.stderrBuf) "Supabase" = false)
    (h2 : strContains (execMessage code s.stderrBuf) "upload" = false)
    (h3 : strContains (execMessage code s.stderrBuf) "SUPABASE_BUCKET" = false)
    (h4 : strContains (execMessage code s.stderrBuf) "exceeds maximum size" = false)
    (h5 : strContains (execMessage code s.stderrBuf) "timed out" = false)
    (h6 : strContains (execMessage code s.stderrBuf) "Failed to spawn" = false)
    (h7 : strContains (execMessage code s.stderrBuf) "Arguments are empty" = false)
    (h8 : strContains (execMessage code s.stderrBuf) "Shell operators" = false)
    (h9 : extractExitCodeAux s.stderrBuf.data = none)
    (timeoutMs : Nat) :
    (normalizedExit code = 0 →
        (runStep timeoutMs s (.close code)).settled
          = some (.resolved s.stdoutBuf s.stderrBuf (normalizedExit code))) ∧
    (∀ n : Nat, code = some n → n ≠ 0 →
        (runStep timeoutMs s (.close code)).settled
            = some (.rejected (execMessage code s.stderrBuf)) ∧
        categorizeError (.error (execMessage code s.stderrBuf))
          = ⟨.execution, execMessage code s.stderrBuf, 400, some (n : Int)⟩) ∧
    (code = none →
        (runStep timeoutMs s (.close code)).settled
            = some (.rejected (execMessage code s.stderrBuf)) ∧
        categorizeError (.error (execMessage code s.stderrBuf))
          = ⟨.execution, execMessage code s.stderrBuf, 400, none⟩) := by
  have hnotto : ¬ s.isTimedOut = true := by
    rw [hto]
    exact Bool.false_ne_true
  refine ⟨?_, ?_, ?_⟩
  · intro hz
    simp only [runStep]
    rw [if_neg hnotto, if_pos hz]
    exact settle_settled_of_none _ _ hset
  · rintro n rfl hn
    have hz : ¬ normalizedExit (some n) = 0 := by
      simp [normalizedExit]
      exact_mod_cast hn
    constructor
    · simp only [runStep]
      rw [if_neg hnotto, if_neg hz]
      exact settle_settled_of_none _ _ hset
    · rw [categorizeError_exec _ h1 h2 h3 h4 h5 h6 h7 h8
        (execMessage_contains_exit _ _)]
      rw [extractExitCode_execMessage_pos n hn]
  · rintro rfl
    have hz : ¬ normalizedExit none = 0 := by decide
    constructor
    · simp only [runStep]
      rw [if_neg hnotto, if_neg hz]
      exact settle_settled_of_none _ _ hset
    · rw [categorizeError_exec _ h1 h2 h3 h4 h5 h6 h7 h8
        (execMessage_contains_exit _ _)]
      rw [extractExitCode_execMessage_neg _ h9]

/-- Witness for C8 (amended): exit code 1 with stderr `boom` classifies
as `execution`, status 400, `exitCode = 1`. -/
theorem claim_C8_exit_code_classification_witness :
    categorizeError (.error (execMessage (some 1) "boom"))
      = ⟨.execution, execMessage (some 1) "boom", 400, some (1 : Int)⟩ ∧
    (runStep 300000 ⟨"", "boom", false, true, none⟩ (.close (some 1))).settled
      = some (.rejected (execMessage (some 1) "boom")) := by
  have t := claim_C8_exit_code_classification (some 1)
    ⟨"", "boom", false, true, none⟩ rfl rfl (by decide) (by decide) (by decide)
    (by decide) (by decide) (by decide) (by decide) (by decide) (by decide) 300000
  have u := t.2.1 1 rfl (by decide)
  exact ⟨u.2, u.1⟩

/-! ### C10: output path confinement -/

theorem splitOnChar_cons (sep c : Char) (cs : List Char) :
    splitOnChar sep (c :: cs)
      = if c == sep then [] :: splitOnChar sep cs
        else (splitOnChar sep cs).modifyHead (c :: ·) := rfl

theorem splitOnChar_ne_nil (sep : Char) (l : List Char) : splitOnChar sep l ≠ [] := by
  cases l with
  | nil => simp [splitOnChar]
  | cons c cs =>
    unfold splitOnChar
    split
    · simp
    · cases h : splitOnChar sep cs with
      | nil => exact absurd h (splitOnChar_ne_nil sep cs)
      | cons x xs => simp [List.modifyHead]

theorem splitOnChar_append_sep (sep : Char) (a b : List Char) :
    splitOnChar sep (a ++ sep :: b) = splitOnChar sep a ++ splitOnChar sep b := by
  induction a with
  | nil =>
    simp [splitOnChar]
  | cons c a' ih =>
    simp only [List.cons_append]
    rw [splitOnChar_cons, splitOnChar_cons sep c a']
    by_cases hc : (c == sep) = true
    · rw [if_pos hc, if_pos hc, ih]
      rfl
    · rw [if_neg hc, if_neg hc, ih]
      cases h : splitOnChar sep a' with
      | nil => exact absurd h (splitOnChar_ne_nil sep a')
      | cons x xs => simp [List.modifyHead]

theorem splitOnChar_no_sep (sep : Char) (l : List Char) :
    ∀ seg ∈ splitOnChar sep l, sep ∉ seg := by
  induction l with
  | nil =>
    intro seg hseg
    simp [splitOnChar] at hseg
    simp [hseg]
  | cons c cs ih =>
    intro seg hseg
    rw [splitOnChar_cons] at hseg
    split at hseg
    · rcases List.mem_cons.mp hseg with rfl | hm
      · simp
      · exact ih seg hm
    · next hne =>
      cases h : splitOnChar sep cs with
      | nil => exact absurd h (splitOnChar_ne_nil sep cs)
      | cons x xs =>
        rw [h] at hseg
        simp only [List.modifyHead] at hseg
        rcases List.mem_cons.mp hseg with rfl | hm
        · intro hmem
          rcases List.mem_cons.mp hmem with rfl | hx
          · exact hne (by simp)
          · exact ih x (h ▸ List.mem_cons_self x xs) hx
        · exact ih seg (h ▸ List.mem_cons_of_mem x hm)

theorem splitOnChar_single (sep : Char) (x : List Char) (h : sep ∉ x) :
    splitOnChar sep x = [x] := by
  induction x with
  | nil => rfl
  | cons c cs ih =>
    rw [splitOnChar_cons]
    rw [if_neg (by simp; intro he; exact h (he ▸ List.mem_cons_self c cs))]
    rw [ih (fun hm => h (List.mem_cons_of_mem c hm))]
    rfl

theorem splitOnChar_join (sep : Char) (segs : List (List Char))
    (hne : segs ≠ []) (h : ∀ s ∈ segs, sep ∉ s) :
    splitOnChar sep (joinWithChar sep segs) = segs := by
  induction segs with
  | nil => exact absurd rfl hne
  | cons s rest ih =>
    cases rest with
    | nil =>
      show splitOnChar sep s = [s]
      exact splitOnChar_single sep s (h s (List.mem_cons_self _ _))
    | cons u r =>
      show splitOnChar sep (s ++ sep :: joinWithChar sep (u :: r)) = s :: u :: r
      rw [splitOnChar_append_sep]
      rw [splitOnChar_single sep s (h s (List.mem_cons_self _ _))]
      rw [ih (by simp) (fun x hx => h x (List.mem_cons_of_mem _ hx))]
      rfl

theorem joinWithChar_append_singleton (sep : Char) (segs : List (List Char))
    (b : List Char) (hne : segs ≠ []) :
    joinWithChar sep (segs ++ [b]) = joinWithChar sep segs ++ sep :: b := by
  induction segs with
  | nil => exact absurd rfl hne
  | cons s rest ih =>
    cases rest with
    | nil => rfl
    | cons u r =>
      show s ++ sep :: joinWithChar sep ((u :: r) ++ [b])
          = (s ++ sep :: joinWithChar sep (u :: r)) ++ sep :: b
      rw [ih (by simp)]
      simp [List.append_assoc]

theorem normSegs_all_good (absolute : Bool) (segs : List (List Char))
    (h : ∀ s ∈ segs, goodSeg s) :
    ∀ acc : List (List Char), normSegs absolute acc segs = acc.reverse ++ segs := by
  induction segs with
  | nil => intro acc; simp [normSegs]
  | cons s rest ih =>
    intro acc
    obtain ⟨h1, _, h3, h4⟩ := h s (List.mem_cons_self _ _)
    unfold normSegs
    rw [if_neg (by simp [h1, h3])]
    rw [if_neg (by simp [h4])]
    rw [ih (fun x hx => h x (List.mem_cons_of_mem _ hx)) (s :: acc)]
    simp

theorem joinWithChar_ne_nil (sep : Char) (s₀ : List Char) (rest : List (List Char))
    (h : s₀ ≠ []) : joinWithChar sep (s₀ :: rest) ≠ [] := by
  cases rest with
  | nil => exact h
  | cons u r => simp [joinWithChar, h]

theorem getLastD_append_right (l₁ l₂ : List Char) (d : Char) (h : l₂ ≠ []) :
    (l₁ ++ l₂).getLastD d = l₂.getLastD d := by
  induction l₁ with
  | nil => rfl
  | cons c cs ih =>
    cases hcc : cs ++ l₂ with
    | nil =>
      rcases List.append_eq_nil.mp hcc with ⟨_, h2⟩
      exact absurd h2 h
    | cons x xs =>
      show ((c :: (cs ++ l₂)).getLastD d) = l₂.getLastD d
      rw [hcc]
      rw [show (c :: x :: xs).getLastD d = (x :: xs).getLastD d from rfl]
      rw [← hcc]
      exact ih

theorem getLastD_mem (l : List Char) (h : l ≠ []) :
    ∀ d : Char, l.getLastD d ∈ l := by
  induction l with
  | nil => exact absurd rfl h
  | cons c cs ih =>
    intro d
    rw [List.getLastD_cons]
    cases hcs : cs with
    | nil =>
      subst hcs
      simp [List.getLastD]
    | cons x xs =>
      subst hcs
      exact List.mem_cons_of_mem c (ih (by simp) c)

/-- Normalization fixes a clean absolute path extended by one regular
segment. -/
theorem posixNormalize_clean (segs : List (List Char)) (b : List Char)
    (hsne : segs ≠ []) (hsgood : ∀ s ∈ segs, goodSeg s) (hb : goodSeg b) :
    posixNormalize (('/' :: joinWithChar '/' segs) ++ '/' :: b)
      = ('/' :: joinWithChar '/' segs) ++ '/' :: b := by
  obtain ⟨s₀, rest, rfl⟩ : ∃ s₀ rest, segs = s₀ :: rest := by
    cases segs with
    | nil => exact absurd rfl hsne
    | cons s₀ rest => exact ⟨s₀, rest, rfl⟩
  have hs₀ : goodSeg s₀ := hsgood s₀ (List.mem_cons_self _ _)
  set J := joinWithChar '/' (s₀ :: rest) with hJ
  have hJne : J ≠ [] := joinWithChar_ne_nil '/' s₀ rest hs₀.1
  have hp : ('/' :: J) ++ '/' :: b = '/' :: (J ++ '/' :: b) := rfl
  rw [hp]
  unfold posixNormalize
  rw [if_neg (by simp)]
  have hsplit : splitOnChar '/' ('/' :: (J ++ '/' :: b))
      = [] :: ((s₀ :: rest) ++ [b]) := by
    show (if '/' == '/' then [] :: splitOnChar '/' (J ++ '/' :: b)
          else (splitOnChar '/' (J ++ '/' :: b)).modifyHead ('/' :: ·))
        = [] :: ((s₀ :: rest) ++ [b])
    rw [if_pos (by simp)]
    rw [splitOnChar_append_sep]
    rw [splitOnChar_join '/' (s₀ :: rest) (by simp)
      (fun s hs => (hsgood s hs).2.1)]
    rw [splitOnChar_single '/' b hb.2.1]
  have hnorm : normSegs true [] ([] :: ((s₀ :: rest) ++ [b]))
      = (s₀ :: rest) ++ [b] := by
    show normSegs true [] ([] :: ((s₀ :: rest) ++ [b])) = _
    unfold normSegs
    rw [if_pos (by simp)]
    rw [normSegs_all_good true ((s₀ :: rest) ++ [b])
      (by
        intro x hx
        rcases List.mem_append.mp hx with hx | hx
        · exact hsgood x hx
        · rcases List.mem_singleton.mp hx with rfl
          exact hb) []]
    rfl
  have hcore : joinWithChar '/' ((s₀ :: rest) ++ [b]) = J ++ '/' :: b :=
    joinWithChar_append_singleton '/' (s₀ :: rest) b (by simp)
  have hlast : ('/' :: (J ++ '/' :: b)).getLastD ' ' ≠ '/' := by
    have hbne : b ≠ [] := hb.1
    rw [show ('/' :: (J ++ '/' :: b)) = ('/' :: J ++ '/' :: []) ++ b by simp]
    rw [getLastD_append_right _ b ' ' hbne]
    intro hcon
    exact hb.2.1 (hcon ▸ getLastD_mem b hbne ' ')
  have hne2 : ¬ (J ++ '/' :: b = []) := by
    intro hcon
    rcases List.append_eq_nil.mp hcon with ⟨hJ0, _⟩
    exact hJne hJ0
  have htr : (('/' :: (J ++ '/' :: b)).getLastD ' ' == '/') = false := by
    simp only [beq_eq_false_iff_ne]
    exact hlast
  simp only [List.cons_append] at hnorm hcore
  simp only [List.headD_cons, beq_self_eq_true, eq_self_iff_true, if_true]
  rw [hsplit]
  simp only [List.cons_append, hnorm, hcore]
  rw [if_neg hne2]
  simp only [htr, Bool.false_eq_true, if_false]

/-- `posixJoin` of a clean absolute directory and a regular basename is
plain concatenation with a separator. -/
theorem posixJoin_clean (td b : String) (htd : cleanAbsDir td)
    (hb : goodSeg b.data) :
    posixJoin td b = td ++ "/" ++ b := by
  obtain ⟨segs, hsne, hsgood, hdata⟩ := htd
  have htdne : td.data.isEmpty = false := by
    rw [hdata]
    rfl
  have hbne : b.data.isEmpty = false := by
    cases hx : b.data with
    | nil => exact absurd hx hb.1
    | cons x xs => rfl
  unfold posixJoin
  rw [show ([td.data, b.data].filter (fun l => !l.isEmpty)) = [td.data, b.data] by
    simp [List.filter, htdne, hbne]]
  rw [if_neg (by simp)]
  rw [show joinWithChar '/' [td.data, b.data] = td.data ++ '/' :: b.data from rfl]
  rw [hdata]
  rw [posixNormalize_clean segs b.data hsne hsgood hb]
  rw [← hdata]
  have hrhs : (td ++ "/" ++ b).data = td.data ++ '/' :: b.data := by
    simp [String.data_append]
  rw [show td.data ++ '/' :: b.data = (td ++ "/" ++ b).data from hrhs.symm]

theorem resolveOutputPaths_mem (names : List String) (tempDir : String) :
    ∀ p ∈ resolveOutputPaths names tempDir,
      p.2 = posixJoin tempDir (posixBasename p.1) := by
  unfold resolveOutputPaths
  suffices h : ∀ (acc : List (String × String)),
      (∀ p ∈ acc, p.2 = posixJoin tempDir (posixBasename p.1)) →
      ∀ p ∈ names.foldl
        (fun m f =>
          if m.any (fun q => q.1 == f) then m
          else m ++ [(f, posixJoin tempDir (posixBasename f))]) acc,
        p.2 = posixJoin tempDir (posixBasename p.1) by
    exact h [] (by simp)
  induction names with
  | nil => exact fun acc hacc p hp => hacc p hp
  | cons f rest ih =>
    intro acc hacc p hp
    rw [List.foldl_cons] at hp
    apply ih _ ?_ p hp
    intro q hq
    split at hq
    · exact hacc q hq
    · rcases List.mem_append.mp hq with hm | hm
      · exact hacc q hm
      · rcases List.mem_singleton.mp hm with rfl
        rfl

theorem replaceArg_not_mem (pathMap : List (String × String)) (arg : String)
    (h : ∀ q ∈ pathMap, q.1 ≠ arg) : replaceArg pathMap arg = arg := by
  unfold replaceArg mapGet
  rw [List.find?_eq_none.mpr (by
    intro q hq
    simp [h q hq])]
  rfl

theorem posixBasename_no_slash (p : String) : '/' ∉ (posixBasename p).data := by
  unfold posixBasename
  rw [show (String.mk ((((splitOnChar '/' p.data).reverse).dropWhile
      List.isEmpty).headD [])).data
    = (((splitOnChar '/' p.data).reverse).dropWhile List.isEmpty).headD [] from rfl]
  cases hd : ((splitOnChar '/' p.data).reverse).dropWhile List.isEmpty with
  | nil => simp
  | cons x xs =>
    simp only [List.headD_cons]
    have hx : x ∈ (splitOnChar '/' p.data).reverse := by
      have : x ∈ ((splitOnChar '/' p.data).reverse).dropWhile List.isEmpty := by
        rw [hd]
        exact List.mem_cons_self _ _
      exact List.dropWhile_sublist _ |>.subset this
    exact splitOnChar_no_sep '/' p.data x (List.mem_reverse.mp hx)

/-- The counterexample for C10: the declared output name `..` has Node
basename `..` (not discarded), and `join` resolves it upward — the
mapped path is the parent of the temp directory, not a path inside it. -/
theorem claim_C10_counterexample :
    posixBasename ".." = ".." ∧
    resolveOutputPaths [".."] "/tmp/ffmpeg-outputs/job1"
        = [("..", "/tmp/ffmpeg-outputs")] ∧
    ¬ strStartsWith "/tmp/ffmpeg-outputs" "/tmp/ffmpeg-outputs/job1/" = true := by
  exact ⟨by rfl, by rfl, by decide⟩

/-- C10 (amended): `resolveOutputPaths` maps every declared name to
`join(tempDir, basename(name))`, and `replaceOutputPaths` substitutes
only exact whole-token matches, leaving every other argument unchanged.
A basename never contains a separator, and whenever the basename is a
regular name (not empty, `.` or `..`) the mapped path is exactly
`tempDir ++ "/" ++ basename` — directly inside the temp directory; the
dot names are the exception the counterexample exhibits. -/
theorem claim_C10_output_path_confinement (tempDir : String)
    (htd : cleanAbsDir tempDir) (names : List String) (args : List String)
    (pathMap : List (String × String)) :
    (∀ p ∈ resolveOutputPaths names tempDir,
        p.2 = posixJoin tempDir (posixBasename p.1)) ∧
    (∀ name : String, posixBasename name ≠ "" → posixBasename name ≠ "." →
        posixBasename name ≠ ".." →
        posixJoin tempDir (posixBasename name)
            = tempDir ++ "/" ++ posixBasename name ∧
        '/' ∉ (posixBasename name).data) ∧
    (∀ arg ∈ args, (∀ q ∈ pathMap, q.1 ≠ arg) → replaceArg pathMap arg = arg) ∧
    replaceOutputPaths args pathMap = args.map (replaceArg pathMap) := by
  refine ⟨resolveOutputPaths_mem names tempDir, ?_, ?_, rfl⟩
  · intro name hne hdot hdots
    have hgood : goodSeg (posixBasename name).data := by
      refine ⟨?_, posixBasename_no_slash name, ?_, ?_⟩
      · intro hc
        exact hne (String.ext hc)
      · intro hc
        exact hdot (String.ext hc)
      · intro hc
        exact hdots (String.ext hc)
    exact ⟨posixJoin_clean tempDir (posixBasename name) htd hgood,
      posixBasename_no_slash name⟩
  · exact fun arg _ h => replaceArg_not_mem pathMap arg h

/-- Witness for C10 (amended): in a concrete clean temp directory, the
regular name `out.mp4` maps exactly to `tempDir/out.mp4`. -/
theorem claim_C10_output_path_confinement_witness :
    posixJoin "/tmp/ffmpeg-outputs/job1" (posixBasename "out.mp4")
        = "/tmp/ffmpeg-outputs/job1" ++ "/" ++ posixBasename "out.mp4" ∧
    '/' ∉ (posixBasename "out.mp4").data := by
  have hsegs : ∀ s ∈ [("tmp" : String).data, ("ffmpeg-outputs" : String).data,
      ("job1" : String).data], goodSeg s := by
    intro s hs
    simp only [List.mem_cons, List.not_mem_nil, or_false] at hs
    rcases hs with rfl | rfl | rfl
    · exact ⟨by decide, by decide, by decide, by decide⟩
    · exact ⟨by decide, by decide, by decide, by decide⟩
    · exact ⟨by decide, by decide, by decide, by decide⟩
  have t := claim_C10_output_path_confinement "/tmp/ffmpeg-outputs/job1"
    ⟨[("tmp" : String).data, ("ffmpeg-outputs" : String).data,
      ("job1" : String).data], by simp, hsegs, by rfl⟩ [] [] []
  exact t.2.1 "out.mp4" (by decide) (by decide) (by decide)

end FfmpegServer
